import Mathlib

/-!
# Verification of the Dynalist service layer (src/dynalist/DynalistService.ts)

Shallow embedding of the tree-mutation engine of the repository: the document
snapshot model, the id→node index, and the service operations
(`addItems`/`addSubItems`, `deleteItems`, `clearList`, `moveItem`,
`restructureItems`, `createListHierarchically`, `getItemAncestors`,
`getItemDescendants`).

Each operation is embedded as a pure function.  Network interaction is made
explicit: an operation takes as extra arguments the responses the remote store
would return (the node list of a `doc/read`, the `new_node_ids` of a
`doc/edit`), and returns alongside its result the ordered list of store calls
it issued.  Failure (a `throw` in the source) is an `Except.error` carrying the
thrown message.
-/

namespace Dyn

/-- A node of a document as returned by `doc/read`
(src/dynalist/DynalistClient.ts, `DocNode`): id plus optional content, note,
checked/checkbox flags, heading, color and an optional ordered list of child
node ids.  Optional (`field?:`) members of the TypeScript interface are
`Option`s here. -/
structure DocNode where
  id : String
  content : Option String := none
  note : Option String := none
  checked : Option Bool := none
  checkbox : Option Bool := none
  heading : Option Nat := none
  color : Option Nat := none
  children : Option (List String) := none
  deriving Repr, DecidableEq

/-- A single change of a `doc/edit` batch (src/dynalist/DynalistClient.ts,
`DocEditChange`): insert, edit, move or delete.  Indices are the 0-based
positions the service computes (always non-negative). -/
inductive DocEditChange where
  | insert (parent_id : String) (index : Nat) (content : String)
      (note : Option String) (checked : Option Bool) (checkbox : Option Bool)
      (heading : Option Nat) (color : Option Nat)
  | edit (node_id : String) (content : Option String) (note : Option String)
      (checked : Option Bool) (checkbox : Option Bool)
      (heading : Option Nat) (color : Option Nat)
  | move (node_id : String) (parent_id : String) (index : Nat)
  | delete (node_id : String)
  deriving Repr, DecidableEq

/-- One remote-store call issued by an operation: a whole-document read or a
batched edit.  Operations record their calls in issue order. -/
inductive StoreCall where
  | docRead
  | docEdit (changes : List DocEditChange)
  deriving Repr, DecidableEq

/-- Holds (`true`) exactly on the move changes of a batch. -/
def DocEditChange.isMove : DocEditChange → Bool
  | DocEditChange.move _ _ _ => true
  | _ => false

/-- All move changes submitted across a trace of store calls, in order.  Used
to state that an operation issued no restructuring edit. -/
def issuedMoves (trace : List StoreCall) : List DocEditChange :=
  trace.flatMap fun s =>
    match s with
    | StoreCall.docEdit cs => cs.filter DocEditChange.isMove
    | StoreCall.docRead => []

/-- The JS `Map` built by `indexById` (DynalistService.ts:786-790),
represented as its entry list in iteration order: `Map.set` keeps the position
of the first insertion of a key and the value of the last insertion. -/
def indexById (nodes : List DocNode) : List DocNode :=
  nodes.foldl
    (fun acc n =>
      if acc.any (fun mem => mem.id == n.id) then
        acc.map (fun mem => if mem.id == n.id then n else mem)
      else acc ++ [n])
    []

/-- Lookup (`Map.get`) on the index built by `indexById`: the unique entry carrying the
given id, if any. -/
def mget (m : List DocNode) (i : String) : Option DocNode :=
  m.find? (fun n => n.id == i)

/-- An item of a list as the service reports it (DynalistService.ts,
`ListItem`).  `nodeRef` is the `_node` back-reference of the source. -/
structure ListItem where
  id : String
  content : String
  note : Option String
  checked : Bool
  children : Option (List String) := none
  nodeRef : Option DocNode := none
  deriving Repr, DecidableEq

/-- The `ListItem` view of a raw node, as built inline by `getItems`,
`getItemChildren`, `getItemAncestors` and `getItemDescendants`: content
defaults to the empty string, `checked` is coerced to a boolean and the
`children` field is copied only when present on the raw node. -/
def mkListItem (n : DocNode) : ListItem :=
  { id := n.id
    content := n.content.getD ""
    note := n.note
    checked := n.checked.getD false
    children := n.children
    nodeRef := some n }

/-- Embedding of `getItems` (DynalistService.ts:222-246) on a snapshot: the resolved direct
children of the `"root"` node, as `ListItem`s; dangling child ids are skipped.
(The enclosing method performs exactly one `doc/read` to obtain `doc`.) -/
def getItemsPure (doc : List DocNode) : List ListItem :=
  let m := indexById doc
  match mget m "root" with
  | none => []
  | some root => ((root.children.getD []).filterMap (mget m)).map mkListItem

/-- Embedding of `getRootChildrenCount` (DynalistService.ts:792-797): child count of the
first node of the raw (not indexed) node list whose id is `"root"`. -/
def getRootChildrenCount (nodes : List DocNode) : Nat :=
  match nodes.find? (fun n => n.id == "root") with
  | none => 0
  | some root => (root.children.getD []).length

/-- The `position` member of `AddItemOptions`. -/
inductive PositionOpt where
  | top
  | bottom
  deriving Repr, DecidableEq

/-- The `AddItemOptions` record of the source: all members optional. -/
structure AddItemOptions where
  note : Option String := none
  checked : Option Bool := none
  checkbox : Option Bool := none
  heading : Option Nat := none
  color : Option Nat := none
  position : Option PositionOpt := none
  deriving Repr, DecidableEq

/-- One element of the `texts` argument of `addItems`/`addSubItems`:
a text plus optional options. -/
structure InsertRequest where
  text : String
  opts : Option AddItemOptions := none
  deriving Repr, DecidableEq

/-- Default `opts?.position ?? 'bottom'`: the effective position of a request. -/
def effPosition (r : InsertRequest) : PositionOpt :=
  (r.opts.bind (fun o => o.position)).getD PositionOpt.bottom

/-- The insert batch built by the request loop shared by `addItemsInternal`
(DynalistService.ts:266-287, with `parent_id = "root"`) and `addSubItems`
(DynalistService.ts:334-355): `offset` increments per request, the index is
`0 + offset` for position top and `start + offset` for position bottom, and
each defined option member is copied onto the change. -/
def insertChanges (parentId : String) (start : Nat) : Nat → List InsertRequest → List DocEditChange
  | _, [] => []
  | offset, r :: rest =>
      DocEditChange.insert parentId
        (match effPosition r with
         | PositionOpt.top => 0 + offset
         | PositionOpt.bottom => start + offset)
        r.text
        (r.opts.bind (fun o => o.note)) (r.opts.bind (fun o => o.checked))
        (r.opts.bind (fun o => o.checkbox)) (r.opts.bind (fun o => o.heading))
        (r.opts.bind (fun o => o.color))
      :: insertChanges parentId start (offset + 1) rest

/-- Embedding of `addItemsInternal` (DynalistService.ts:256-297).  `doc` is the node list
the single `doc/read` returns, `respIds` the `new_node_ids` of the `doc/edit`
response.  An id count differing from the request count is a thrown
count-mismatch error, raised after the edit call. -/
def addItemsInternal (doc : List DocNode) (respIds : List String)
    (texts : List InsertRequest) : Except String (List String) × List StoreCall :=
  if texts.length = 0 then (Except.ok [], [])
  else
    let start := getRootChildrenCount doc
    let changes := insertChanges "root" start 0 texts
    if respIds.length = texts.length then
      (Except.ok respIds, [StoreCall.docRead, StoreCall.docEdit changes])
    else
      (Except.error ("Inserted " ++ toString respIds.length ++ " of " ++
         toString texts.length ++ " items"),
       [StoreCall.docRead, StoreCall.docEdit changes])

/-- Embedding of `addItems` (DynalistService.ts:299-308): empty input returns immediately
without any store call, otherwise `addItemsInternal` under the mutex. -/
def addItems (doc : List DocNode) (respIds : List String)
    (texts : List InsertRequest) : Except String (List String) × List StoreCall :=
  if texts.length = 0 then (Except.ok [], [])
  else addItemsInternal doc respIds texts

/-- Embedding of `addSubItems` (DynalistService.ts:314-366): like `addItemsInternal` but
under an explicit parent node, which must resolve in the snapshot; `start` is
that parent's current child count. -/
def addSubItems (doc : List DocNode) (respIds : List String)
    (parentNodeId : String) (texts : List InsertRequest) :
    Except String (List String) × List StoreCall :=
  if texts.length = 0 then (Except.ok [], [])
  else
    let m := indexById doc
    match mget m parentNodeId with
    | none =>
        (Except.error ("Parent node " ++ parentNodeId ++ " not found"),
         [StoreCall.docRead])
    | some parent =>
        let start := (parent.children.getD []).length
        let changes := insertChanges parentNodeId start 0 texts
        if respIds.length = texts.length then
          (Except.ok respIds, [StoreCall.docRead, StoreCall.docEdit changes])
        else
          (Except.error ("Inserted " ++ toString respIds.length ++ " of " ++
             toString texts.length ++ " sub-items"),
           [StoreCall.docRead, StoreCall.docEdit changes])

/-- Embedding of `deleteItems` (DynalistService.ts:478-490): empty input returns 0 with no
store call; otherwise one `doc/edit` with a delete change per node id (the
method performs no read). -/
def deleteItems (nodeIds : List String) : Except String Nat × List StoreCall :=
  if nodeIds.length = 0 then (Except.ok 0, [])
  else
    (Except.ok nodeIds.length,
     [StoreCall.docEdit (nodeIds.map DocEditChange.delete)])

/-- JS truthiness of a `string | undefined` value: `undefined` and the empty
string are falsy. -/
def strTruthy : Option String → Bool
  | none => false
  | some s => !(s == "")

/-- One element of a `restructureItems` batch (DynalistService.ts,
`RestructureOperation`): node, optional new parent, position in the parent. -/
structure RestructureOperation where
  nodeId : String
  newParent : Option String := none
  newIndex : Nat
  deriving Repr, DecidableEq

/-- The validation loop of `restructureItemsInternal`
(DynalistService.ts:558-566): the message of the first failing check, if any.
Each node id must resolve; a new parent is checked only when truthy
(`op.newParent && !nodes.has(op.newParent)`). -/
def validateOps (m : List DocNode) : List RestructureOperation → Option String
  | [] => none
  | op :: rest =>
      if (mget m op.nodeId).isNone then
        some ("Node " ++ op.nodeId ++ " not found")
      else if strTruthy op.newParent && (mget m (op.newParent.getD "")).isNone then
        some ("Parent node " ++ op.newParent.getD "" ++ " not found")
      else validateOps m rest

/-- The move batch of `restructureItemsInternal` (DynalistService.ts:569-574):
one move change per operation, in order, with `parent_id = op.newParent ?? 'root'`
(the `??` default applies only to an absent parent, not to an empty string). -/
def restructureChanges (ops : List RestructureOperation) : List DocEditChange :=
  ops.map fun op =>
    DocEditChange.move op.nodeId (op.newParent.getD "root") op.newIndex

/-- Embedding of `restructureItemsInternal` (DynalistService.ts:548-578): empty batch
returns 0 without store calls; otherwise one read, client-side validation of
every operation, and — only when all pass — one edit with the move batch. -/
def restructureItemsInternal (doc : List DocNode)
    (ops : List RestructureOperation) : Except String Nat × List StoreCall :=
  if ops.length = 0 then (Except.ok 0, [])
  else
    let m := indexById doc
    match validateOps m ops with
    | some msg => (Except.error msg, [StoreCall.docRead])
    | none =>
        (Except.ok ops.length,
         [StoreCall.docRead, StoreCall.docEdit (restructureChanges ops)])

/-- Embedding of `restructureItems` (DynalistService.ts:580-587): the internal version under
the mutex. -/
def restructureItems (doc : List DocNode)
    (ops : List RestructureOperation) : Except String Nat × List StoreCall :=
  restructureItemsInternal doc ops

/-- Embedding of `clearList` (DynalistService.ts:386-401): read the top-level items, delete
the checked ones in one batch (no edit call at all when none are checked) and
return their count. -/
def clearList (doc : List DocNode) : Except String Nat × List StoreCall :=
  let items := getItemsPure doc
  let toDelete := (items.filter (fun i => i.checked)).map (fun i => i.id)
  if toDelete.length = 0 then (Except.ok 0, [StoreCall.docRead])
  else
    (Except.ok toDelete.length,
     [StoreCall.docRead, StoreCall.docEdit (toDelete.map DocEditChange.delete)])

/-- The `position` member of a `MoveTarget`: top, bottom or an absolute
numeric index (a JS number, possibly negative before clamping). -/
inductive PositionSpec where
  | top
  | bottom
  | num (i : Int)
  deriving Repr, DecidableEq

/-- The `MoveTarget` record of the source: optional parent, position, before, after. -/
structure MoveTarget where
  parent : Option String := none
  position : Option PositionSpec := none
  before : Option String := none
  after : Option String := none
  deriving Repr, DecidableEq

/-- Target-parent resolution of `moveItem` (DynalistService.ts:425-435): an
explicit `target.parent` wins; otherwise the first index entry whose children
contain the node is the parent, defaulting to `"root"` when none does. -/
def resolveTargetParent (m : List DocNode) (nodeId : String)
    (t : MoveTarget) : String :=
  match t.parent with
  | some p => p
  | none =>
      match m.find? (fun n => (n.children.getD []).contains nodeId) with
      | some n => n.id
      | none => "root"

/-- Embedding of `moveItem` (DynalistService.ts:408-473): read, check the node exists,
resolve the target parent, resolve the position to a concrete index among the
parent's current children (clamping numeric positions, failing when a
`before`/`after` reference is not a current child — the source messages quote
the words before and after), and issue a single move edit.
`List.indexOf` returns the list length where `Array.indexOf` returns -1, so
the `i < 0` test of the source becomes an `≥ length` test. -/
def moveItem (doc : List DocNode) (nodeId : String) (t : MoveTarget) :
    Except String Unit × List StoreCall :=
  let m := indexById doc
  match mget m nodeId with
  | none => (Except.error ("Node " ++ nodeId ++ " not found"), [StoreCall.docRead])
  | some _ =>
      let targetParentId := resolveTargetParent m nodeId t
      match mget m targetParentId with
      | none =>
          (Except.error ("Target parent " ++ targetParentId ++ " not found"),
           [StoreCall.docRead])
      | some targetParent =>
          let siblings := targetParent.children.getD []
          let idx : Except String Nat :=
            match t.position with
            | some (PositionSpec.num i) =>
                Except.ok (Int.toNat (max 0 (min i (Int.ofNat siblings.length))))
            | some PositionSpec.top => Except.ok 0
            | some PositionSpec.bottom => Except.ok siblings.length
            | none =>
                if strTruthy t.before then
                  let i := siblings.indexOf (t.before.getD "")
                  if siblings.length ≤ i then
                    Except.error "Target before node not found"
                  else Except.ok i
                else if strTruthy t.after then
                  let i := siblings.indexOf (t.after.getD "")
                  if siblings.length ≤ i then
                    Except.error "Target after node not found"
                  else Except.ok (i + 1)
                else Except.ok siblings.length
          match idx with
          | Except.error e => (Except.error e, [StoreCall.docRead])
          | Except.ok index =>
              (Except.ok (),
               [StoreCall.docRead,
                StoreCall.docEdit [DocEditChange.move nodeId targetParentId index]])

/-- Modelled from the spec: per-node effect of a `move` edit — the moved node
is removed from the node's children and, when the node is the target parent,
re-inserted at the given index, clamped to the list length. -/
def moveNodeUpdate (nodeId parentId : String) (index : Nat)
    (n : DocNode) : DocNode :=
  let cs := (n.children.getD []).filter (fun c => !(c == nodeId))
  if n.id == parentId then
    { n with children := some (cs.insertIdx (min index cs.length) nodeId) }
  else
    { n with children := n.children.map (fun _ => cs) }

/-- Modelled from the spec: the remote store (the external RemoteDocumentStore
of spec section 6, not part of src/) applies a `move` edit to a snapshot by
removing the node from every children list and inserting it into the target
parent's ordered children at the given 0-based index, clamped to the list
length. -/
def applyMove (doc : List DocNode) (nodeId parentId : String)
    (index : Nat) : List DocNode :=
  doc.map (moveNodeUpdate nodeId parentId index)

/-- Modelled from the spec: per-node effect of a `delete` edit on a surviving
node — the deleted id is dropped from its children list. -/
def deleteNodeUpdate (nodeId : String) (n : DocNode) : DocNode :=
  { n with children := n.children.map (fun cs => cs.filter (fun c => !(c == nodeId))) }

/-- Modelled from the spec: the remote store applies a `delete` edit by
removing the node from the snapshot's node set and from every children list
(spec section 3; the store itself is external to src/). -/
def applyDelete (doc : List DocNode) (nodeId : String) : List DocNode :=
  (doc.filter (fun n => !(n.id == nodeId))).map (deleteNodeUpdate nodeId)

/-- A batch of deletes applied in order. -/
def applyDeletes (doc : List DocNode) (ids : List String) : List DocNode :=
  ids.foldl applyDelete doc

/-- The children list of a node of a snapshot, for observing post-states. -/
def childListOf (doc : List DocNode) (pid : String) : List String :=
  match doc.find? (fun n => n.id == pid) with
  | none => []
  | some n => n.children.getD []

/-- An intent tree passed to `createListHierarchically` (DynalistService.ts,
`TreeNode`).  In the source `children` is an optional array and recursion only
happens when it is non-empty, so an absent and an empty array behave alike and
a plain list is a faithful embedding. -/
inductive TreeNode where
  | mk (content : String) (note : Option String) (checked : Option Bool)
      (checkbox : Option Bool) (heading : Option Nat) (color : Option Nat)
      (children : List TreeNode)
  deriving Repr

def TreeNode.content : TreeNode → String
  | TreeNode.mk c _ _ _ _ _ _ => c

def TreeNode.note : TreeNode → Option String
  | TreeNode.mk _ v _ _ _ _ _ => v

def TreeNode.checked : TreeNode → Option Bool
  | TreeNode.mk _ _ v _ _ _ _ => v

def TreeNode.checkbox : TreeNode → Option Bool
  | TreeNode.mk _ _ _ v _ _ _ => v

def TreeNode.heading : TreeNode → Option Nat
  | TreeNode.mk _ _ _ _ v _ _ => v

def TreeNode.color : TreeNode → Option Nat
  | TreeNode.mk _ _ _ _ _ v _ => v

def TreeNode.children : TreeNode → List TreeNode
  | TreeNode.mk _ _ _ _ _ _ cs => cs

/-- One entry of the flattened tree (`flatNodes` in the source): the node, its
depth, and the flat-list index of its parent entry when it has one. -/
structure FlatEntry where
  node : TreeNode
  depth : Nat
  parentIndex : Option Nat := none
  deriving Repr

/-- The `flattenTree` closure of `createListHierarchically`
(DynalistService.ts:605-621): pre-order flattening into the accumulator `acc`;
`currentIndex` is the accumulator length when the node is pushed, and children
are flattened right after their parent with that index recorded. -/
def flattenTree (depth : Nat) (pIdx : Option Nat) :
    List TreeNode → List FlatEntry → List FlatEntry
  | [], acc => acc
  | TreeNode.mk c no ch cb h col cs :: rest, acc =>
      let n := TreeNode.mk c no ch cb h col cs
      let cur := acc.length
      let acc1 := acc ++ [{ node := n, depth := depth, parentIndex := pIdx }]
      let acc2 :=
        if cs.length > 0 then flattenTree (depth + 1) (some cur) cs acc1 else acc1
      flattenTree depth pIdx rest acc2

/-- The flat request list of phase 2 (DynalistService.ts:624-633): one insert
request per flat entry, carrying the node's content and option members
(`position` is never set, so every request lands at the bottom). -/
def createRequests (flat : List FlatEntry) : List InsertRequest :=
  flat.map fun e =>
    { text := e.node.content
      opts := some
        { note := e.node.note, checked := e.node.checked
          checkbox := e.node.checkbox, heading := e.node.heading
          color := e.node.color, position := none } }

/-- The sibling-position count of phase 3 (DynalistService.ts:658-664): how
many entries before index `i` of the flat list record the same parent index. -/
def countEarlierSiblings (flat : List FlatEntry) (i : Nat) (p : Nat) : Nat :=
  ((flat.take i).filter (fun e => e.parentIndex == some p)).length

/-- The restructure-operation loop of phase 3 (DynalistService.ts:642-672) on
the enumerated flat list: entries without a parent index are skipped; a parent
whose created id is missing or empty (`!parentId`) is a thrown error; every
other entry contributes one move of its created id under its parent's created
id at its sibling position. -/
def buildOpsAux (flat : List FlatEntry) (ids : List String) :
    List (Nat × FlatEntry) → Except String (List RestructureOperation)
  | [] => Except.ok []
  | p :: rest =>
      match p.2.parentIndex with
      | none => buildOpsAux flat ids rest
      | some q =>
          let parentId := ids.getD q ""
          if parentId == "" then
            Except.error ("Parent ID not found for index " ++ toString q)
          else
            match buildOpsAux flat ids rest with
            | Except.error e => Except.error e
            | Except.ok ops =>
                Except.ok
                  ({ nodeId := ids.getD p.1 "", newParent := some parentId,
                     newIndex := countEarlierSiblings flat p.1 q } :: ops)

/-- Phase 3 of `createListHierarchically`: the restructure operations for the
whole flat list. -/
def buildRestructureOps (flat : List FlatEntry) (ids : List String) :
    Except String (List RestructureOperation) :=
  buildOpsAux flat ids flat.enum

/-- The returned root ids (DynalistService.ts:680-689): created ids of the
entries without a parent index, in flat order, skipping missing or empty ids
(`if (rootNodeId)`). -/
def rootNodeIds (flat : List FlatEntry) (ids : List String) : List String :=
  flat.enum.filterMap fun p =>
    match p.2.parentIndex with
    | some _ => none
    | none =>
        match ids.get? p.1 with
        | none => none
        | some i => if i == "" then none else some i

/-- Embedding of `createListHierarchically` (DynalistService.ts:594-693).  `doc1` is the
snapshot read by the embedded `addItemsInternal`, `respIds` the created ids of
its edit response, `doc2` the snapshot read by the embedded
`restructureItemsInternal` (the source reads the document twice).  Returns the
`rootNodes` list and the full store-call trace. -/
def createListHierarchically (doc1 : List DocNode) (respIds : List String)
    (doc2 : List DocNode) (tree : List TreeNode) :
    Except String (List String) × List StoreCall :=
  if tree.length = 0 then (Except.ok [], [])
  else
    let flat := flattenTree 0 none tree []
    let reqs := createRequests flat
    match addItemsInternal doc1 respIds reqs with
    | (Except.error e, tr1) => (Except.error e, tr1)
    | (Except.ok createdIds, tr1) =>
        if createdIds.length ≠ flat.length then
          (Except.error ("Created " ++ toString createdIds.length ++ " of " ++
             toString flat.length ++ " nodes"), tr1)
        else
          match buildRestructureOps flat createdIds with
          | Except.error e => (Except.error e, tr1)
          | Except.ok ops =>
              if ops.length > 0 then
                match restructureItemsInternal doc2 ops with
                | (Except.error e, tr2) => (Except.error e, tr1 ++ tr2)
                | (Except.ok _, tr2) =>
                    (Except.ok (rootNodeIds flat createdIds), tr1 ++ tr2)
              else (Except.ok (rootNodeIds flat createdIds), tr1)

/-- The reverse parent lookup shared by `getItemAncestors` and `moveItem`: the
id of the first index entry whose children list contains the target. -/
def findFirstParent (m : List DocNode) (target : String) : Option String :=
  (m.find? (fun n => (n.children.getD []).contains target)).map (fun n => n.id)

/-- The `findParentPath` closure of `getItemAncestors`
(DynalistService.ts:708-718): walk first-parents until the root (or a node
with no recorded parent), collecting the chain from the topmost ancestor down
to the immediate parent.  The source recursion terminates on every acyclic
snapshot; the embedding bounds it by a fuel argument, instantiated with the
index size, which a walk on an acyclic snapshot can never exhaust. -/
def findParentPath (m : List DocNode) : Nat → String → List String
  | 0, _ => []
  | fuel + 1, target =>
      match findFirstParent m target with
      | none => []
      | some p =>
          if p == "root" then []
          else findParentPath m fuel p ++ [p]

/-- Embedding of `getItemAncestors` (DynalistService.ts:699-739): fails when the start node
is absent; otherwise the `ListItem`s of the parent chain, topmost first,
skipping ids that do not resolve. -/
def getItemAncestors (doc : List DocNode) (nodeId : String) :
    Except String (List ListItem) × List StoreCall :=
  let m := indexById doc
  if (mget m nodeId).isNone then
    (Except.error ("Node " ++ nodeId ++ " not found"), [StoreCall.docRead])
  else
    let ancestorIds := findParentPath m m.length nodeId
    (Except.ok (ancestorIds.filterMap (fun i => (mget m i).map mkListItem)),
     [StoreCall.docRead])

/-- The `collectDescendants` closure of `getItemDescendants`
(DynalistService.ts:755-773): for each id in order, skip it when unresolved;
otherwise recurse into its children first and push its own item after them —
the loop appends, per id, the segment `descendants-of-children ++ [item]`,
which is the `foldr` below.  The source recursion terminates on every acyclic
snapshot; the embedding bounds the recursion depth by a fuel argument,
instantiated with the index size, which a descent on an acyclic snapshot can
never exhaust. -/
def collectDescendants (m : List DocNode) : Nat → List String → List ListItem
  | 0, _ => []
  | fuel + 1, ids =>
      ids.foldr
        (fun i acc =>
          match mget m i with
          | none => acc
          | some n =>
              match n.children with
              | none => mkListItem n :: acc
              | some cs =>
                  collectDescendants m fuel cs ++ (mkListItem n :: acc))
        []

/-- Embedding of `getItemDescendants` (DynalistService.ts:745-780): fails when the start
node is absent; otherwise the collected descendants of its children list. -/
def getItemDescendants (doc : List DocNode) (nodeId : String) :
    Except String (List ListItem) × List StoreCall :=
  let m := indexById doc
  match mget m nodeId with
  | none => (Except.error ("Node " ++ nodeId ++ " not found"), [StoreCall.docRead])
  | some parent =>
      match parent.children with
      | none => (Except.ok [], [StoreCall.docRead])
      | some cs => (Except.ok (collectDescendants m m.length cs), [StoreCall.docRead])

/-! ## Observers used to state the claims -/

/-- Index carried by an insert or move change. -/
def insertIndexOf : DocEditChange → Nat
  | DocEditChange.insert _ i _ _ _ _ _ _ => i
  | DocEditChange.edit _ _ _ _ _ _ _ => 0
  | DocEditChange.move _ _ i => i
  | DocEditChange.delete _ => 0

/-- Content carried by an insert change. -/
def insertContentOf : DocEditChange → String
  | DocEditChange.insert _ _ c _ _ _ _ _ => c
  | _ => ""

/-- Parent id carried by an insert or move change. -/
def insertParentOf : DocEditChange → String
  | DocEditChange.insert p _ _ _ _ _ _ _ => p
  | DocEditChange.move _ p _ => p
  | _ => ""

/-- A restructure operation is client-side valid for the index `m`: its node
id resolves, and its parent id — when present and non-empty — resolves. -/
def ValidOp (m : List DocNode) (op : RestructureOperation) : Prop :=
  (mget m op.nodeId).isSome = true ∧
    ∀ s, op.newParent = some s → s ≠ "" → (mget m s).isSome = true

/-- Executable form of `ValidOp`. -/
def validOpB (m : List DocNode) (op : RestructureOperation) : Bool :=
  (mget m op.nodeId).isSome &&
    (match op.newParent with
     | none => true
     | some s => (s == "") || (mget m s).isSome)

theorem validOp_iff (m : List DocNode) (op : RestructureOperation) :
    ValidOp m op ↔ validOpB m op = true := by
  unfold ValidOp validOpB
  cases hp : op.newParent with
  | none => simp
  | some s =>
      by_cases hs : s = ""
      · subst hs
        simp
      · simp [hs]

instance (m : List DocNode) (op : RestructureOperation) :
    Decidable (ValidOp m op) :=
  decidable_of_iff _ (validOp_iff m op).symm

/-! ## Helper lemmas -/

theorem insertChanges_map_index (p : String) (start : Nat) :
    ∀ (l : List InsertRequest) (off : Nat),
      (∀ r ∈ l, effPosition r = PositionOpt.bottom) →
      (insertChanges p start off l).map insertIndexOf =
        List.range' (start + off) l.length := by
  intro l
  induction l with
  | nil => intro off _; rfl
  | cons r rest ih =>
      intro off hb
      have hr : effPosition r = PositionOpt.bottom := hb r (by simp)
      have hrest : ∀ x ∈ rest, effPosition x = PositionOpt.bottom :=
        fun x hx => hb x (by simp [hx])
      simp only [insertChanges, hr, List.map_cons, insertIndexOf, List.length_cons,
        List.range'_succ]
      rw [ih (off + 1) hrest, Nat.add_assoc]

theorem insertChanges_map_content (p : String) (start : Nat) :
    ∀ (l : List InsertRequest) (off : Nat),
      (insertChanges p start off l).map insertContentOf = l.map InsertRequest.text := by
  intro l
  induction l with
  | nil => intro off; rfl
  | cons r rest ih =>
      intro off
      simp only [insertChanges, List.map_cons, ih (off + 1)]
      cases effPosition r <;> rfl

theorem insertChanges_map_parent (p : String) (start : Nat) :
    ∀ (l : List InsertRequest) (off : Nat),
      (insertChanges p start off l).map insertParentOf =
        List.replicate l.length p := by
  intro l
  induction l with
  | nil => intro off; rfl
  | cons r rest ih =>
      intro off
      simp only [insertChanges, List.map_cons, ih (off + 1), List.length_cons,
        List.replicate_succ]
      cases effPosition r <;> rfl

theorem insertChanges_length (p : String) (start : Nat) :
    ∀ (l : List InsertRequest) (off : Nat),
      (insertChanges p start off l).length = l.length := by
  intro l
  induction l with
  | nil => intro off; rfl
  | cons r rest ih => intro off; simp [insertChanges, ih (off + 1)]

theorem insertChanges_no_move (p : String) (start : Nat) :
    ∀ (l : List InsertRequest) (off : Nat),
      (insertChanges p start off l).filter DocEditChange.isMove = [] := by
  intro l
  induction l with
  | nil => intro off; rfl
  | cons r rest ih =>
      intro off
      simp [insertChanges, List.filter_cons, DocEditChange.isMove, ih (off + 1)]

theorem validOp_head_of_checks (m : List DocNode) (op : RestructureOperation)
    (h1 : (mget m op.nodeId).isNone = false)
    (h2 : (strTruthy op.newParent && (mget m (op.newParent.getD "")).isNone) = false) :
    ValidOp m op := by
  constructor
  · cases hmg : mget m op.nodeId with
    | none => rw [hmg] at h1; simp at h1
    | some n => simp
  · intro s hs hne
    rw [hs] at h2
    have hst : strTruthy (some s) = true := by
      simp [strTruthy, hne]
    rw [hst, Bool.true_and] at h2
    cases hmg : mget m ((some s : Option String).getD "") with
    | none =>
        rw [hmg] at h2
        simp at h2
    | some n =>
        simp only [Option.getD_some] at hmg
        simp [hmg]

theorem validateOps_eq_none_iff (m : List DocNode) :
    ∀ ops : List RestructureOperation,
      validateOps m ops = none ↔ ∀ op ∈ ops, ValidOp m op := by
  intro ops
  induction ops with
  | nil => simp [validateOps]
  | cons op rest ih =>
      by_cases h1 : (mget m op.nodeId).isNone
      · constructor
        · intro h; simp [validateOps, h1] at h
        · intro h
          have := (h op (by simp)).1
          rw [Option.isNone_iff_eq_none] at h1
          rw [h1] at this
          simp at this
      · by_cases h2 : strTruthy op.newParent && (mget m (op.newParent.getD "")).isNone
        · constructor
          · intro h
            simp only [validateOps, h1, if_false, Bool.if_false_left] at h
            rw [if_pos h2] at h
            simp at h
          · intro h
            exfalso
            rw [Bool.and_eq_true] at h2
            obtain ⟨hst, hmiss⟩ := h2
            cases hp : op.newParent with
            | none => rw [hp] at hst; simp [strTruthy] at hst
            | some s =>
                rw [hp] at hst hmiss
                have hne : s ≠ "" := by
                  by_contra he
                  rw [he] at hst
                  simp [strTruthy] at hst
                have := (h op (by simp)).2 s hp hne
                simp only [Option.getD_some] at hmiss
                rw [Option.isNone_iff_eq_none] at hmiss
                rw [hmiss] at this
                simp at this
        · have hv : ValidOp m op :=
            validOp_head_of_checks m op (Bool.eq_false_iff.mpr h1)
              (Bool.eq_false_iff.mpr h2)
          have hstep : validateOps m (op :: rest) = validateOps m rest := by
            simp only [validateOps]
            rw [if_neg h1, if_neg h2]
          rw [hstep, ih]
          constructor
          · intro h x hx
            rcases List.mem_cons.mp hx with hx | hx
            · exact hx ▸ hv
            · exact h x hx
          · intro h x hx
            exact h x (List.mem_cons_of_mem _ hx)

theorem flattenTree_prefix :
    ∀ (N : Nat) (l : List TreeNode), sizeOf l ≤ N →
      ∀ (depth : Nat) (pIdx : Option Nat) (acc : List FlatEntry),
      ∃ t, flattenTree depth pIdx l acc = acc ++ t := by
  intro N
  induction N with
  | zero =>
      intro l hl depth pIdx acc
      cases l with
      | nil => exact ⟨[], by simp [flattenTree]⟩
      | cons n rest => exfalso; simp at hl
  | succ N ih =>
      intro l hl depth pIdx acc
      cases l with
      | nil => exact ⟨[], by simp [flattenTree]⟩
      | cons n rest =>
          cases n with
          | mk c no ch cb h col cs =>
              have hcs : sizeOf cs ≤ N := by
                have h1 := TreeNode.mk.sizeOf_spec c no ch cb h col cs
                simp at hl
                omega
              have hrest : sizeOf rest ≤ N := by
                simp at hl
                omega
              rw [flattenTree]
              by_cases hc : cs.length > 0
              · simp only [hc, if_true]
                obtain ⟨t1, ht1⟩ := ih cs hcs (depth + 1) (some acc.length)
                  (acc ++ [{ node := TreeNode.mk c no ch cb h col cs,
                             depth := depth, parentIndex := pIdx }])
                rw [ht1]
                obtain ⟨t2, ht2⟩ := ih rest hrest depth pIdx
                  ((acc ++ [{ node := TreeNode.mk c no ch cb h col cs,
                              depth := depth, parentIndex := pIdx }]) ++ t1)
                rw [ht2]
                refine ⟨{ node := TreeNode.mk c no ch cb h col cs,
                          depth := depth, parentIndex := pIdx } :: (t1 ++ t2), ?_⟩
                simp [List.append_assoc]
              · simp only [hc, if_false]
                obtain ⟨t2, ht2⟩ := ih rest hrest depth pIdx
                  (acc ++ [{ node := TreeNode.mk c no ch cb h col cs,
                             depth := depth, parentIndex := pIdx }])
                rw [ht2]
                refine ⟨{ node := TreeNode.mk c no ch cb h col cs,
                          depth := depth, parentIndex := pIdx } :: t2, ?_⟩
                simp [List.append_assoc]

/-- The flattening of a non-empty intent forest is non-empty. -/
theorem flattenTree_ne_nil (l : List TreeNode) (hl : l ≠ []) :
    flattenTree 0 none l [] ≠ [] := by
  cases l with
  | nil => exact absurd rfl hl
  | cons n rest =>
      cases n with
      | mk c no ch cb h col cs =>
          rw [flattenTree]
          by_cases hc : cs.length > 0
          · simp only [hc, if_true]
            obtain ⟨t1, ht1⟩ :=
              flattenTree_prefix (sizeOf cs) cs le_rfl 1 (some ([] : List FlatEntry).length)
                ([] ++ [{ node := TreeNode.mk c no ch cb h col cs,
                          depth := 0, parentIndex := none }])
            rw [ht1]
            obtain ⟨t2, ht2⟩ :=
              flattenTree_prefix (sizeOf rest) rest le_rfl 0 none
                (([] ++ [{ node := TreeNode.mk c no ch cb h col cs,
                           depth := 0, parentIndex := none }]) ++ t1)
            rw [ht2]
            simp
          · simp only [hc, if_false]
            obtain ⟨t2, ht2⟩ :=
              flattenTree_prefix (sizeOf rest) rest le_rfl 0 none
                ([] ++ [{ node := TreeNode.mk c no ch cb h col cs,
                          depth := 0, parentIndex := none }])
            rw [ht2]
            simp

theorem createRequests_length (flat : List FlatEntry) :
    (createRequests flat).length = flat.length :=
  List.length_map flat _

/-- Behavior of `addItemsInternal` on a non-empty batch with a matching id count: one read,
one edit with the insert batch, and the ids returned unchanged. -/
theorem addItemsInternal_ok (doc : List DocNode) (respIds : List String)
    (texts : List InsertRequest) (hne : texts ≠ [])
    (hlen : respIds.length = texts.length) :
    addItemsInternal doc respIds texts =
      (Except.ok respIds,
       [StoreCall.docRead,
        StoreCall.docEdit (insertChanges "root" (getRootChildrenCount doc) 0 texts)]) := by
  simp only [addItemsInternal]
  rw [if_neg (by simpa [List.length_eq_zero] using hne), if_pos hlen]

/-- Behavior of `addItemsInternal` on a non-empty batch with a count mismatch: the edit is
issued, then the count-mismatch error is raised. -/
theorem addItemsInternal_mismatch (doc : List DocNode) (respIds : List String)
    (texts : List InsertRequest) (hne : texts ≠ [])
    (hlen : respIds.length ≠ texts.length) :
    addItemsInternal doc respIds texts =
      (Except.error ("Inserted " ++ toString respIds.length ++ " of " ++
         toString texts.length ++ " items"),
       [StoreCall.docRead,
        StoreCall.docEdit (insertChanges "root" (getRootChildrenCount doc) 0 texts)]) := by
  simp only [addItemsInternal]
  rw [if_neg (by simpa [List.length_eq_zero] using hne), if_neg hlen]

/-! ## Claim C10 -/

/-- C10: every batch operation invoked with an empty input list — `addItems`
or `addSubItems` with no texts, `deleteItems` with no node ids,
`restructureItems` with no operations, `createListHierarchically` with an
empty tree — returns its empty result (`{ ids: [] }`, `0`, or
`{ rootNodes: [] }`) and issues no remote read or edit call, leaving the
remote document unchanged. -/
theorem claim_C10_empty_input_no_calls :
    (∀ doc respIds, addItems doc respIds [] = (Except.ok [], [])) ∧
    (∀ doc respIds p, addSubItems doc respIds p [] = (Except.ok [], [])) ∧
    deleteItems [] = (Except.ok 0, []) ∧
    (∀ doc, restructureItems doc [] = (Except.ok 0, [])) ∧
    (∀ doc1 respIds doc2,
      createListHierarchically doc1 respIds doc2 [] = (Except.ok [], [])) :=
  ⟨fun _ _ => rfl, fun _ _ _ => rfl, rfl, fun _ => rfl, fun _ _ _ => rfl⟩

/-! ## Claim C3 -/

/-- C3: a batch of N requests that all take the (default) bottom position,
answered by the store with N created ids, issues a single read followed by a
single edit whose insert changes carry target indices
`priorCount, priorCount+1, …, priorCount+N-1` in request order —
`priorCount` being the root's snapshot child count — with the requested
contents in input order, and the operation returns the store's id list
unchanged, so the Nth returned id corresponds to the Nth requested item.
`addSubItems` behaves the same under an explicit parent, whose snapshot child
count seeds the indices. -/
theorem claim_C3_bottom_insert_indices (doc : List DocNode)
    (respIds : List String) (texts : List InsertRequest)
    (hne : texts ≠ [])
    (hb : ∀ r ∈ texts, effPosition r = PositionOpt.bottom)
    (hlen : respIds.length = texts.length) :
    (addItemsInternal doc respIds texts =
       (Except.ok respIds,
        [StoreCall.docRead,
         StoreCall.docEdit (insertChanges "root" (getRootChildrenCount doc) 0 texts)]) ∧
     (insertChanges "root" (getRootChildrenCount doc) 0 texts).map insertIndexOf =
       List.range' (getRootChildrenCount doc) texts.length ∧
     (insertChanges "root" (getRootChildrenCount doc) 0 texts).map insertContentOf =
       texts.map InsertRequest.text) ∧
    ∀ pid pn, mget (indexById doc) pid = some pn →
      addSubItems doc respIds pid texts =
        (Except.ok respIds,
         [StoreCall.docRead,
          StoreCall.docEdit (insertChanges pid (pn.children.getD []).length 0 texts)]) ∧
      (insertChanges pid (pn.children.getD []).length 0 texts).map insertIndexOf =
        List.range' (pn.children.getD []).length texts.length := by
  refine ⟨⟨addItemsInternal_ok doc respIds texts hne hlen, ?_, ?_⟩, ?_⟩
  · simpa using insertChanges_map_index "root" (getRootChildrenCount doc) texts 0 hb
  · exact insertChanges_map_content "root" (getRootChildrenCount doc) texts 0
  · intro pid pn hpn
    constructor
    · simp only [addSubItems]
      rw [if_neg (by simpa [List.length_eq_zero] using hne)]
      simp only [hpn]
      rw [if_pos hlen]
    · simpa using insertChanges_map_index pid (pn.children.getD []).length texts 0 hb

/-- Witness for C3 at a concrete input: two default-position requests over a
snapshot whose root has one child. -/
theorem claim_C3_bottom_insert_indices_witness :
    ([{ text := "t1" }, { text := "t2" }] : List InsertRequest) ≠ [] ∧
    (∀ r ∈ ([{ text := "t1" }, { text := "t2" }] : List InsertRequest),
      effPosition r = PositionOpt.bottom) ∧
    (["x", "y"] : List String).length =
      ([{ text := "t1" }, { text := "t2" }] : List InsertRequest).length ∧
    (addItemsInternal [{ id := "root", children := some ["a"] }] ["x", "y"]
        [{ text := "t1" }, { text := "t2" }] =
       (Except.ok ["x", "y"],
        [StoreCall.docRead,
         StoreCall.docEdit (insertChanges "root"
           (getRootChildrenCount [{ id := "root", children := some ["a"] }]) 0
           [{ text := "t1" }, { text := "t2" }])]) ∧
      (insertChanges "root"
          (getRootChildrenCount [{ id := "root", children := some ["a"] }]) 0
          [{ text := "t1" }, { text := "t2" }]).map insertIndexOf =
        List.range'
          (getRootChildrenCount [{ id := "root", children := some ["a"] }])
          ([{ text := "t1" }, { text := "t2" }] : List InsertRequest).length ∧
      (insertChanges "root"
          (getRootChildrenCount [{ id := "root", children := some ["a"] }]) 0
          [{ text := "t1" }, { text := "t2" }]).map insertContentOf =
        ([{ text := "t1" }, { text := "t2" }] : List InsertRequest).map
          InsertRequest.text) ∧
    ∀ pid pn,
      mget (indexById [{ id := "root", children := some ["a"] }]) pid = some pn →
      addSubItems [{ id := "root", children := some ["a"] }] ["x", "y"] pid
          [{ text := "t1" }, { text := "t2" }] =
        (Except.ok ["x", "y"],
         [StoreCall.docRead,
          StoreCall.docEdit (insertChanges pid (pn.children.getD []).length 0
            [{ text := "t1" }, { text := "t2" }])]) ∧
      (insertChanges pid (pn.children.getD []).length 0
          [{ text := "t1" }, { text := "t2" }]).map insertIndexOf =
        List.range' (pn.children.getD []).length
          ([{ text := "t1" }, { text := "t2" }] : List InsertRequest).length :=
  ⟨by decide, by decide, by decide,
   claim_C3_bottom_insert_indices [{ id := "root", children := some ["a"] }]
     ["x", "y"] [{ text := "t1" }, { text := "t2" }]
     (by decide) (by decide) (by decide)⟩

/-! ## Claim C5 -/

/-- C5 (amended): every referenced node id and every *non-empty* referenced
parent id of a restructure batch is validated to exist in the snapshot before
any edit is issued: when at least one of those referenced ids is unknown the
operation fails after the read and zero move edits are submitted; otherwise
exactly one move edit is emitted per operation, in the given order.  (The
amendment restricts parent validation to non-empty parent ids: an operation
whose `newParent` is the empty string bypasses the check — see the
counterexample.) -/
theorem claim_C5_restructure_validation (doc : List DocNode)
    (ops : List RestructureOperation) (hne : ops ≠ []) :
    ((∀ op ∈ ops, ValidOp (indexById doc) op) →
       restructureItemsInternal doc ops =
         (Except.ok ops.length,
          [StoreCall.docRead,
           StoreCall.docEdit (ops.map fun op =>
             DocEditChange.move op.nodeId (op.newParent.getD "root") op.newIndex)])) ∧
    ((¬ ∀ op ∈ ops, ValidOp (indexById doc) op) →
       (∃ e, (restructureItemsInternal doc ops).1 = Except.error e) ∧
       (restructureItemsInternal doc ops).2 = [StoreCall.docRead]) := by
  constructor
  · intro hall
    have hv : validateOps (indexById doc) ops = none :=
      (validateOps_eq_none_iff (indexById doc) ops).mpr hall
    simp only [restructureItemsInternal]
    rw [if_neg (by simpa [List.length_eq_zero] using hne)]
    simp only [hv]
    rfl
  · intro hbad
    have hv : validateOps (indexById doc) ops ≠ none := by
      intro h
      exact hbad ((validateOps_eq_none_iff (indexById doc) ops).mp h)
    obtain ⟨msg, hmsg⟩ := Option.ne_none_iff_exists'.mp hv
    simp only [restructureItemsInternal]
    rw [if_neg (by simpa [List.length_eq_zero] using hne)]
    simp only [hmsg]
    exact ⟨⟨msg, rfl⟩, trivial⟩

/-- Witness for C5 at a concrete input: a valid one-operation batch emits its
single move; an invalid one (unknown node id) is rejected after the read. -/
theorem claim_C5_restructure_validation_witness :
    ([{ nodeId := "n1", newParent := some "root", newIndex := 0 }] :
        List RestructureOperation) ≠ [] ∧
    restructureItemsInternal
        [{ id := "root", children := some ["n1"] }, { id := "n1" }]
        [{ nodeId := "n1", newParent := some "root", newIndex := 0 }] =
      (Except.ok 1,
       [StoreCall.docRead,
        StoreCall.docEdit [DocEditChange.move "n1" "root" 0]]) ∧
    (∃ e, (restructureItemsInternal
        [{ id := "root", children := some ["n1"] }, { id := "n1" }]
        [{ nodeId := "zz", newParent := none, newIndex := 0 }]).1 =
      Except.error e) ∧
    (restructureItemsInternal
        [{ id := "root", children := some ["n1"] }, { id := "n1" }]
        [{ nodeId := "zz", newParent := none, newIndex := 0 }]).2 =
      [StoreCall.docRead] :=
  ⟨by decide,
   (claim_C5_restructure_validation
       [{ id := "root", children := some ["n1"] }, { id := "n1" }]
       [{ nodeId := "n1", newParent := some "root", newIndex := 0 }]
       (by decide)).1 (by decide),
   (claim_C5_restructure_validation
       [{ id := "root", children := some ["n1"] }, { id := "n1" }]
       [{ nodeId := "zz", newParent := none, newIndex := 0 }]
       (by decide)).2 (by decide)⟩

/-- C5, counterexample to the claim as frozen: a restructure operation whose
`newParent` is the empty string references a parent id that is unknown in the
snapshot, yet the batch is not rejected — validation is bypassed
(`op.newParent &&` is falsy on the empty string) and one move edit with
`parent_id = ""` is submitted to the store instead of zero edits. -/
theorem claim_C5_counterexample :
    mget (indexById [{ id := "root", children := some ["n1"] },
        ({ id := "n1" } : DocNode)]) "" = none ∧
    restructureItemsInternal
        [{ id := "root", children := some ["n1"] }, { id := "n1" }]
        [{ nodeId := "n1", newParent := some "", newIndex := 0 }] =
      (Except.ok 1,
       [StoreCall.docRead, StoreCall.docEdit [DocEditChange.move "n1" "" 0]]) :=
  ⟨rfl, rfl⟩

/-! ## Claim C2 -/

/-- C2: whenever the number of created identifiers returned by the store's
edit response differs from the number of insert requests issued,
`createListHierarchically` (and likewise `addItems` and `addSubItems`) fails
with a count-mismatch error immediately after that mutating call — the trace
ends at the insert edit — and before any restructure (move) edit is issued;
no repair edits of any kind follow. -/
theorem claim_C2_count_mismatch_aborts :
    (∀ (doc1 : List DocNode) (respIds : List String) (doc2 : List DocNode)
        (tree : List TreeNode), tree ≠ [] →
       respIds.length ≠ (flattenTree 0 none tree []).length →
       createListHierarchically doc1 respIds doc2 tree =
         (Except.error ("Inserted " ++ toString respIds.length ++ " of " ++
            toString (flattenTree 0 none tree []).length ++ " items"),
          [StoreCall.docRead,
           StoreCall.docEdit (insertChanges "root" (getRootChildrenCount doc1) 0
             (createRequests (flattenTree 0 none tree [])))]) ∧
       issuedMoves (createListHierarchically doc1 respIds doc2 tree).2 = []) ∧
    (∀ (doc : List DocNode) (respIds : List String) (texts : List InsertRequest),
       texts ≠ [] → respIds.length ≠ texts.length →
       addItems doc respIds texts =
         (Except.error ("Inserted " ++ toString respIds.length ++ " of " ++
            toString texts.length ++ " items"),
          [StoreCall.docRead,
           StoreCall.docEdit (insertChanges "root" (getRootChildrenCount doc) 0 texts)]) ∧
       issuedMoves (addItems doc respIds texts).2 = []) ∧
    (∀ (doc : List DocNode) (respIds : List String) (pid : String) (pn : DocNode)
        (texts : List InsertRequest),
       texts ≠ [] → mget (indexById doc) pid = some pn →
       respIds.length ≠ texts.length →
       addSubItems doc respIds pid texts =
         (Except.error ("Inserted " ++ toString respIds.length ++ " of " ++
            toString texts.length ++ " sub-items"),
          [StoreCall.docRead,
           StoreCall.docEdit (insertChanges pid (pn.children.getD []).length 0 texts)]) ∧
       issuedMoves (addSubItems doc respIds pid texts).2 = []) := by
  refine ⟨?_, ?_, ?_⟩
  · intro doc1 respIds doc2 tree htree hlen
    have hflat : flattenTree 0 none tree [] ≠ [] := flattenTree_ne_nil tree htree
    have hreq : createRequests (flattenTree 0 none tree []) ≠ [] := by
      intro h
      have := createRequests_length (flattenTree 0 none tree [])
      rw [h] at this
      exact hflat (List.length_eq_zero.mp this.symm)
    have hlen' : respIds.length ≠ (createRequests (flattenTree 0 none tree [])).length := by
      rw [createRequests_length]; exact hlen
    have haie := addItemsInternal_mismatch doc1 respIds
      (createRequests (flattenTree 0 none tree [])) hreq hlen'
    have hmain : createListHierarchically doc1 respIds doc2 tree =
        (Except.error ("Inserted " ++ toString respIds.length ++ " of " ++
           toString (flattenTree 0 none tree []).length ++ " items"),
         [StoreCall.docRead,
          StoreCall.docEdit (insertChanges "root" (getRootChildrenCount doc1) 0
            (createRequests (flattenTree 0 none tree [])))]) := by
      simp only [createListHierarchically]
      rw [if_neg (by simpa [List.length_eq_zero] using htree)]
      rw [haie, createRequests_length]
    refine ⟨hmain, ?_⟩
    rw [hmain]
    simp only [issuedMoves, List.flatMap_cons, List.flatMap_nil]
    rw [insertChanges_no_move]
    rfl
  · intro doc respIds texts hne hlen
    have hmain : addItems doc respIds texts =
        (Except.error ("Inserted " ++ toString respIds.length ++ " of " ++
           toString texts.length ++ " items"),
         [StoreCall.docRead,
          StoreCall.docEdit (insertChanges "root" (getRootChildrenCount doc) 0 texts)]) := by
      simp only [addItems]
      rw [if_neg (by simpa [List.length_eq_zero] using hne)]
      exact addItemsInternal_mismatch doc respIds texts hne hlen
    refine ⟨hmain, ?_⟩
    rw [hmain]
    simp only [issuedMoves, List.flatMap_cons, List.flatMap_nil]
    rw [insertChanges_no_move]
    rfl
  · intro doc respIds pid pn texts hne hpn hlen
    have hmain : addSubItems doc respIds pid texts =
        (Except.error ("Inserted " ++ toString respIds.length ++ " of " ++
           toString texts.length ++ " sub-items"),
         [StoreCall.docRead,
          StoreCall.docEdit (insertChanges pid (pn.children.getD []).length 0 texts)]) := by
      simp only [addSubItems]
      rw [if_neg (by simpa [List.length_eq_zero] using hne)]
      simp only [hpn]
      rw [if_neg hlen]
    refine ⟨hmain, ?_⟩
    rw [hmain]
    simp only [issuedMoves, List.flatMap_cons, List.flatMap_nil]
    rw [insertChanges_no_move]
    rfl

/-- Witness for C2 at a concrete input: a two-node tree answered with a single
created id, and a two-request batch answered with a single id. -/
theorem claim_C2_count_mismatch_aborts_witness :
    ([TreeNode.mk "A" none none none none none [],
      TreeNode.mk "B" none none none none none []] ≠ ([] : List TreeNode)) ∧
    (["x"] : List String).length ≠
      (flattenTree 0 none
        [TreeNode.mk "A" none none none none none [],
         TreeNode.mk "B" none none none none none []] []).length ∧
    (createListHierarchically [{ id := "root", children := some [] }] ["x"]
        [{ id := "root", children := some [] }]
        [TreeNode.mk "A" none none none none none [],
         TreeNode.mk "B" none none none none none []] =
      (Except.error ("Inserted " ++ toString (["x"] : List String).length ++ " of " ++
         toString (flattenTree 0 none
           [TreeNode.mk "A" none none none none none [],
            TreeNode.mk "B" none none none none none []] []).length ++ " items"),
       [StoreCall.docRead,
        StoreCall.docEdit (insertChanges "root"
          (getRootChildrenCount [{ id := "root", children := some [] }]) 0
          (createRequests (flattenTree 0 none
            [TreeNode.mk "A" none none none none none [],
             TreeNode.mk "B" none none none none none []] [])))]) ∧
     issuedMoves (createListHierarchically [{ id := "root", children := some [] }]
        ["x"] [{ id := "root", children := some [] }]
        [TreeNode.mk "A" none none none none none [],
         TreeNode.mk "B" none none none none none []]).2 = []) := by
  refine ⟨by simp, by simp [flattenTree], ?_⟩
  exact claim_C2_count_mismatch_aborts.1
    [{ id := "root", children := some [] }] ["x"]
    [{ id := "root", children := some [] }]
    [TreeNode.mk "A" none none none none none [],
     TreeNode.mk "B" none none none none none []]
    (by simp) (by simp [flattenTree])

/-! ## Lemmas for the move claim -/

/-- On a snapshot with pairwise distinct ids the JS `Map` keeps the node list
unchanged. -/
theorem indexById_eq_self (doc : List DocNode)
    (h : (doc.map (fun n => n.id)).Nodup) : indexById doc = doc := by
  suffices haux : ∀ (l acc : List DocNode),
      ((acc ++ l).map (fun n => n.id)).Nodup →
      l.foldl
        (fun acc n =>
          if acc.any (fun mem => mem.id == n.id) then
            acc.map (fun mem => if mem.id == n.id then n else mem)
          else acc ++ [n])
        acc = acc ++ l by
    have h0 := haux doc [] (by simpa using h)
    unfold indexById
    exact h0.trans (List.nil_append doc)
  intro l
  induction l with
  | nil => intro acc _; simp
  | cons n rest ih =>
      intro acc hnd
      have hmem : n.id ∉ acc.map (fun x => x.id) := by
        intro hc
        rw [List.map_append] at hnd
        have hd := List.disjoint_of_nodup_append hnd
        exact hd hc (by simp)
      have hany : acc.any (fun mem => mem.id == n.id) = false := by
        rw [List.any_eq_false]
        intro x hx h
        have he : x.id = n.id := by simpa using h
        exact hmem (he ▸ List.mem_map_of_mem (fun y => y.id) hx)
      simp only [List.foldl_cons, hany, Bool.false_eq_true, if_false]
      have := ih (acc ++ [n]) (by simpa using hnd)
      rw [this]
      simp

/-- Lookup returns a node carrying the requested id. -/
theorem mget_id (m : List DocNode) (i : String) (n : DocNode)
    (h : mget m i = some n) : n.id = i := by
  have := List.find?_some h
  simpa using this

theorem indexOf_append_cons (A B : List String) (Y : String) (hYA : Y ∉ A) :
    (A ++ Y :: B).indexOf Y = A.length := by
  induction A with
  | nil => simp [List.indexOf_cons_self]
  | cons a A ih =>
      have hne : a ≠ Y := fun he => hYA (he ▸ List.mem_cons_self a A)
      have : ((a :: A) ++ Y :: B).indexOf Y = ((A ++ Y :: B).indexOf Y) + 1 :=
        List.indexOf_cons_ne _ hne
      rw [this, ih (fun hc => hYA (List.mem_cons_of_mem a hc))]
      simp

theorem filter_ne_of_not_mem (A : List String) (X : String) (hXA : X ∉ A) :
    A.filter (fun c => !(c == X)) = A := by
  rw [List.filter_eq_self]
  intro a ha
  simp only [Bool.not_eq_eq_eq_not, Bool.not_true, beq_eq_false_iff_ne, ne_eq]
  intro he
  exact hXA (he ▸ ha)

theorem insertIdx_length_append (A l : List String) (x : String) :
    List.insertIdx A.length x (A ++ l) = A ++ x :: l := by
  induction A with
  | nil => rfl
  | cons a A ih => simp [List.insertIdx_succ_cons, ih]

theorem moveNodeUpdate_id (nodeId parentId : String) (index : Nat)
    (n : DocNode) : (moveNodeUpdate nodeId parentId index n).id = n.id := by
  unfold moveNodeUpdate
  by_cases h : n.id == parentId
  · simp [h]
  · simp [h]

/-- After a move edit, the target parent's children list is the old list with
the moved node removed and re-inserted at the clamped index. -/
theorem applyMove_childListOf (doc : List DocNode) (X P : String) (idx : Nat)
    (pn : DocNode) (hfind : doc.find? (fun n => n.id == P) = some pn) :
    childListOf (applyMove doc X P idx) P =
      ((pn.children.getD []).filter (fun c => !(c == X))).insertIdx
        (min idx (((pn.children.getD []).filter (fun c => !(c == X))).length)) X := by
  unfold childListOf applyMove
  have hpred : (fun n : DocNode => n.id == P) ∘ moveNodeUpdate X P idx =
      fun n : DocNode => n.id == P := by
    funext n
    simp [Function.comp, moveNodeUpdate_id]
  rw [List.find?_map, hpred, hfind]
  have hid : pn.id == P := by
    have := List.find?_some hfind
    simpa using this
  simp only [Option.map_some']
  unfold moveNodeUpdate
  rw [if_pos hid]
  simp

/-- C4 (amended): for every `moveItem` call with a before/after target,
*provided the moved node X is not currently a child of the resolved parent at
a position strictly before the reference node Y*, moving X before Y places X
immediately preceding Y in the resolved parent's child order and moving X
after Y places X immediately following Y (post-states under the spec-modelled
store application `applyMove`); if the referenced target id is not a current
child of the resolved parent, the operation fails with a not-found error and
issues no edit call.  (The proviso is the amendment: when X is an earlier
sibling of Y the emitted index is computed against the pre-removal child list
and the store's removal shifts Y down, so X does not land immediately before
Y — see the counterexample.) -/
theorem claim_C4_move_before_after :
    (∀ (doc : List DocNode) (X Y P : String) (t : MoveTarget) (pn : DocNode)
       (A B : List String),
       (doc.map (fun n => n.id)).Nodup →
       t.position = none → t.before = some Y → Y ≠ "" →
       (mget (indexById doc) X).isSome = true →
       resolveTargetParent (indexById doc) X t = P →
       mget (indexById doc) P = some pn →
       pn.children.getD [] = A ++ Y :: B →
       Y ∉ A → X ∉ A → X ≠ Y →
       moveItem doc X t =
         (Except.ok (),
          [StoreCall.docRead,
           StoreCall.docEdit [DocEditChange.move X P A.length]]) ∧
       List.IsInfix [X, Y] (childListOf (applyMove doc X P A.length) P)) ∧
    (∀ (doc : List DocNode) (X Y P : String) (t : MoveTarget) (pn : DocNode)
       (A B : List String),
       (doc.map (fun n => n.id)).Nodup →
       t.position = none → t.before = none → t.after = some Y → Y ≠ "" →
       (mget (indexById doc) X).isSome = true →
       resolveTargetParent (indexById doc) X t = P →
       mget (indexById doc) P = some pn →
       pn.children.getD [] = A ++ Y :: B →
       Y ∉ A → X ∉ A → X ≠ Y →
       moveItem doc X t =
         (Except.ok (),
          [StoreCall.docRead,
           StoreCall.docEdit [DocEditChange.move X P (A.length + 1)]]) ∧
       List.IsInfix [Y, X] (childListOf (applyMove doc X P (A.length + 1)) P)) ∧
    (∀ (doc : List DocNode) (X Y P : String) (t : MoveTarget) (pn : DocNode),
       t.position = none → t.before = some Y → Y ≠ "" →
       (mget (indexById doc) X).isSome = true →
       resolveTargetParent (indexById doc) X t = P →
       mget (indexById doc) P = some pn →
       Y ∉ pn.children.getD [] →
       moveItem doc X t =
         (Except.error "Target before node not found", [StoreCall.docRead])) ∧
    (∀ (doc : List DocNode) (X Y P : String) (t : MoveTarget) (pn : DocNode),
       t.position = none → t.before = none → t.after = some Y → Y ≠ "" →
       (mget (indexById doc) X).isSome = true →
       resolveTargetParent (indexById doc) X t = P →
       mget (indexById doc) P = some pn →
       Y ∉ pn.children.getD [] →
       moveItem doc X t =
         (Except.error "Target after node not found", [StoreCall.docRead])) := by
  refine ⟨?_, ?_, ?_, ?_⟩
  · intro doc X Y P t pn A B hnd hpos hbef hY hX hP hpn hsib hYA hXA hXY
    obtain ⟨w, hw⟩ := Option.isSome_iff_exists.mp hX
    have hidx : (A ++ Y :: B).indexOf Y = A.length := indexOf_append_cons A B Y hYA
    have hlt : ¬ ((A ++ Y :: B).length ≤ A.length) := by simp
    constructor
    · simp only [moveItem, hw, hP, hpn, hsib, hpos, hbef]
      simp only [strTruthy, Option.getD_some, hidx]
      rw [if_neg hlt]
      rw [if_pos (show (!(Y == "")) = true by simp [hY])]
    · have hids : indexById doc = doc := indexById_eq_self doc hnd
      have hfind : doc.find? (fun n => n.id == P) = some pn := by
        have := hpn
        rw [mget, hids] at this
        exact this
      rw [applyMove_childListOf doc X P A.length pn hfind, hsib]
      have hfil : (A ++ Y :: B).filter (fun c => !(c == X)) =
          A ++ Y :: (B.filter (fun c => !(c == X))) := by
        rw [List.filter_append, filter_ne_of_not_mem A X hXA]
        have hYX : (!(Y == X)) = true := by
          simp only [Bool.not_eq_eq_eq_not, Bool.not_true, beq_eq_false_iff_ne, ne_eq]
          exact fun he => hXY he.symm
        simp [List.filter_cons, hYX]
      rw [hfil]
      have hmin : min A.length (A ++ Y :: (B.filter (fun c => !(c == X)))).length
          = A.length := by
        apply Nat.min_eq_left
        simp
      rw [hmin, insertIdx_length_append A (Y :: (B.filter (fun c => !(c == X)))) X]
      exact ⟨A, B.filter (fun c => !(c == X)), by simp⟩
  · intro doc X Y P t pn A B hnd hpos hbefn haft hY hX hP hpn hsib hYA hXA hXY
    obtain ⟨w, hw⟩ := Option.isSome_iff_exists.mp hX
    have hidx : (A ++ Y :: B).indexOf Y = A.length := indexOf_append_cons A B Y hYA
    have hlt : ¬ ((A ++ Y :: B).length ≤ A.length) := by simp
    constructor
    · simp only [moveItem, hw, hP, hpn, hsib, hpos, hbefn, haft]
      simp only [strTruthy, Option.getD_some, hidx]
      rw [if_neg hlt]
      rw [if_pos (show (!(Y == "")) = true by simp [hY])]
      simp
    · have hids : indexById doc = doc := indexById_eq_self doc hnd
      have hfind : doc.find? (fun n => n.id == P) = some pn := by
        have := hpn
        rw [mget, hids] at this
        exact this
      rw [applyMove_childListOf doc X P (A.length + 1) pn hfind, hsib]
      have hfil : (A ++ Y :: B).filter (fun c => !(c == X)) =
          (A ++ [Y]) ++ (B.filter (fun c => !(c == X))) := by
        rw [List.filter_append, filter_ne_of_not_mem A X hXA]
        have hYX : (!(Y == X)) = true := by
          simp only [Bool.not_eq_eq_eq_not, Bool.not_true, beq_eq_false_iff_ne, ne_eq]
          exact fun he => hXY he.symm
        simp [List.filter_cons, hYX]
      rw [hfil]
      have hmin : min (A.length + 1) ((A ++ [Y]) ++ (B.filter (fun c => !(c == X)))).length
          = A.length + 1 := by
        apply Nat.min_eq_left
        simp
      have hlen : A.length + 1 = (A ++ [Y]).length := by simp
      rw [hmin, hlen,
        insertIdx_length_append (A ++ [Y]) (B.filter (fun c => !(c == X))) X]
      exact ⟨A, B.filter (fun c => !(c == X)), by simp⟩
  · intro doc X Y P t pn hpos hbef hY hX hP hpn hYsib
    obtain ⟨w, hw⟩ := Option.isSome_iff_exists.mp hX
    have hidx : (pn.children.getD []).indexOf Y = (pn.children.getD []).length :=
      List.indexOf_eq_length.mpr hYsib
    simp only [moveItem, hw, hP, hpn, hpos, hbef]
    simp only [strTruthy, Option.getD_some, hidx]
    rw [if_pos (show (!(Y == "")) = true by simp [hY])]
    rw [if_pos (le_refl _)]
  · intro doc X Y P t pn hpos hbefn haft hY hX hP hpn hYsib
    obtain ⟨w, hw⟩ := Option.isSome_iff_exists.mp hX
    have hidx : (pn.children.getD []).indexOf Y = (pn.children.getD []).length :=
      List.indexOf_eq_length.mpr hYsib
    simp only [moveItem, hw, hP, hpn, hpos, hbefn, haft]
    simp only [strTruthy, Option.getD_some, hidx]
    rw [if_pos (show (!(Y == "")) = true by simp [hY])]
    simp

/-- C4, counterexample to the claim as frozen: with root children `[x, y]`,
moving `x` before `y` succeeds and emits index 1 (computed on the pre-removal
sibling list), and the store's application (spec-modelled `applyMove`) leaves
the children as `[y, x]` — the moved node does not immediately precede the
target. -/
theorem claim_C4_counterexample :
    moveItem
        [{ id := "root", children := some ["x", "y"] },
         { id := "x" }, { id := "y" }] "x" { before := some "y" } =
      (Except.ok (),
       [StoreCall.docRead, StoreCall.docEdit [DocEditChange.move "x" "root" 1]]) ∧
    childListOf
      (applyMove
        [{ id := "root", children := some ["x", "y"] },
         { id := "x" }, { id := "y" }] "x" "root" 1) "root" = ["y", "x"] ∧
    ¬ List.IsInfix ["x", "y"] ["y", "x"] :=
  ⟨rfl, rfl, by decide⟩

/-- Witness for C4 at concrete inputs over the snapshot
`root → [y, x]`: a before-move of x (not an earlier sibling of y), an
after-move of x, and the two not-found failures. -/
theorem claim_C4_move_before_after_witness :
    (moveItem
        [{ id := "root", children := some ["y", "x"] },
         { id := "y" }, { id := "x" }] "x" { before := some "y" } =
      (Except.ok (),
       [StoreCall.docRead,
        StoreCall.docEdit [DocEditChange.move "x" "root" ([] : List String).length]]) ∧
     List.IsInfix ["x", "y"]
       (childListOf
         (applyMove
           [{ id := "root", children := some ["y", "x"] },
            { id := "y" }, { id := "x" }] "x" "root" ([] : List String).length)
         "root")) ∧
    (moveItem
        [{ id := "root", children := some ["y", "x"] },
         { id := "y" }, { id := "x" }] "x" { after := some "y" } =
      (Except.ok (),
       [StoreCall.docRead,
        StoreCall.docEdit
          [DocEditChange.move "x" "root" (([] : List String).length + 1)]]) ∧
     List.IsInfix ["y", "x"]
       (childListOf
         (applyMove
           [{ id := "root", children := some ["y", "x"] },
            { id := "y" }, { id := "x" }] "x" "root"
           (([] : List String).length + 1))
         "root")) ∧
    moveItem
        [{ id := "root", children := some ["y", "x"] },
         { id := "y" }, { id := "x" }] "x" { before := some "zz" } =
      (Except.error "Target before node not found", [StoreCall.docRead]) ∧
    moveItem
        [{ id := "root", children := some ["y", "x"] },
         { id := "y" }, { id := "x" }] "x" { after := some "zz" } =
      (Except.error "Target after node not found", [StoreCall.docRead]) :=
  ⟨claim_C4_move_before_after.1
      [{ id := "root", children := some ["y", "x"] },
       { id := "y" }, { id := "x" }] "x" "y" "root"
      { before := some "y" }
      { id := "root", children := some ["y", "x"] } [] ["x"]
      (by decide) rfl rfl (by decide) rfl rfl rfl rfl
      (by decide) (by decide) (by decide),
   claim_C4_move_before_after.2.1
      [{ id := "root", children := some ["y", "x"] },
       { id := "y" }, { id := "x" }] "x" "y" "root"
      { after := some "y" }
      { id := "root", children := some ["y", "x"] } [] ["x"]
      (by decide) rfl rfl rfl (by decide) rfl rfl rfl rfl
      (by decide) (by decide) (by decide),
   claim_C4_move_before_after.2.2.1
      [{ id := "root", children := some ["y", "x"] },
       { id := "y" }, { id := "x" }] "x" "zz" "root"
      { before := some "zz" }
      { id := "root", children := some ["y", "x"] }
      rfl rfl (by decide) rfl rfl rfl (by decide),
   claim_C4_move_before_after.2.2.2
      [{ id := "root", children := some ["y", "x"] },
       { id := "y" }, { id := "x" }] "x" "zz" "root"
      { after := some "zz" }
      { id := "root", children := some ["y", "x"] }
      rfl rfl rfl (by decide) rfl rfl rfl (by decide)⟩

/-! ## Claim C7 -/

/-- Ancestor chain of `x` in the index `m`, ordered topmost ancestor first,
immediate parent last, excluding the root node and `x` itself: each link is
the first-parent lookup the source performs, and the topmost link's parent is
the root. -/
inductive ChainTo (m : List DocNode) : String → List String → Prop
  | base {x : String} : findFirstParent m x = some "root" → ChainTo m x []
  | step {x p : String} {ch : List String} :
      findFirstParent m x = some p → p ≠ "root" → ChainTo m p ch →
      ChainTo m x (ch ++ [p])

theorem findFirstParent_mem (m : List DocNode) (x p : String)
    (h : findFirstParent m x = some p) : p ∈ m.map (fun n => n.id) := by
  unfold findFirstParent at h
  cases hf : m.find? (fun n => (n.children.getD []).contains x) with
  | none => rw [hf] at h; simp at h
  | some n =>
      rw [hf] at h
      simp only [Option.map_some'] at h
      obtain rfl : n.id = p := by simpa using h
      exact List.mem_map_of_mem (fun n => n.id) (List.mem_of_find?_eq_some hf)

theorem chainTo_not_root (m : List DocNode) (x : String) (ch : List String)
    (h : ChainTo m x ch) : "root" ∉ ch := by
  induction h with
  | base _ => simp
  | step hf hp _ ih =>
      intro hc
      rcases List.mem_append.mp hc with hc | hc
      · exact ih hc
      · simp at hc
        exact hp hc.symm

theorem chainTo_mem (m : List DocNode) (x : String) (ch : List String)
    (h : ChainTo m x ch) : ∀ a ∈ ch, a ∈ m.map (fun n => n.id) := by
  induction h with
  | base _ => simp
  | step hf hp hch ih =>
      intro a ha
      rcases List.mem_append.mp ha with ha | ha
      · exact ih a ha
      · simp at ha
        exact ha ▸ findFirstParent_mem m _ _ hf

theorem chainTo_root_mem (m : List DocNode) (x : String) (ch : List String)
    (h : ChainTo m x ch) : "root" ∈ m.map (fun n => n.id) := by
  induction h with
  | base hf => exact findFirstParent_mem m _ _ hf
  | step _ _ _ ih => exact ih

theorem chainTo_length_lt (m : List DocNode) (x : String) (ch : List String)
    (h : ChainTo m x ch) (hnd : ch.Nodup) : ch.length < m.length := by
  have hnd2 : ("root" :: ch).Nodup := by
    rw [List.nodup_cons]
    exact ⟨chainTo_not_root m x ch h, hnd⟩
  have hsub : ("root" :: ch) ⊆ m.map (fun n => n.id) := by
    intro a ha
    rcases List.mem_cons.mp ha with ha | ha
    · exact ha ▸ chainTo_root_mem m x ch h
    · exact chainTo_mem m x ch h a ha
  have hcard : ("root" :: ch).toFinset.card ≤ (m.map (fun n => n.id)).toFinset.card :=
    Finset.card_le_card (fun a ha => List.mem_toFinset.mpr (hsub (List.mem_toFinset.mp ha)))
  have h1 : ("root" :: ch).toFinset.card = ch.length + 1 := by
    rw [List.toFinset_card_of_nodup hnd2]
    simp
  have h2 : (m.map (fun n => n.id)).toFinset.card ≤ m.length := by
    calc (m.map (fun n => n.id)).toFinset.card ≤ (m.map (fun n => n.id)).length :=
          List.toFinset_card_le _
      _ = m.length := List.length_map _ _
  omega

theorem findParentPath_eq_chain (m : List DocNode) :
    ∀ (x : String) (ch : List String), ChainTo m x ch →
      ∀ fuel, ch.length < fuel → findParentPath m fuel x = ch := by
  intro x ch h
  induction h with
  | base hf =>
      intro fuel hfuel
      cases fuel with
      | zero => omega
      | succ k =>
          simp only [findParentPath, hf]
          rw [if_pos (by simp)]
  | step hf hp hch ih =>
      intro fuel hfuel
      cases fuel with
      | zero => omega
      | succ k =>
          simp only [findParentPath, hf]
          rw [if_neg (by simpa using hp)]
          rw [ih k (by simp at hfuel; omega)]

theorem filterMap_items_of_mem (m : List DocNode) :
    ∀ ch : List String, (∀ a ∈ ch, a ∈ m.map (fun n => n.id)) →
      (ch.filterMap (fun i => (mget m i).map mkListItem)).map ListItem.id = ch := by
  intro ch
  induction ch with
  | nil => intro _; rfl
  | cons a rest ih =>
      intro hall
      have ha : a ∈ m.map (fun n => n.id) := hall a (by simp)
      have : (mget m a).isSome = true := by
        rw [mget, List.find?_isSome]
        obtain ⟨n, hn, hid⟩ := List.mem_map.mp ha
        exact ⟨n, hn, by simp [hid]⟩
      obtain ⟨n, hn⟩ := Option.isSome_iff_exists.mp this
      simp only [List.filterMap_cons, hn, Option.map_some', List.map_cons]
      rw [ih (fun b hb => hall b (List.mem_cons_of_mem a hb))]
      have : n.id = a := mget_id m a n hn
      simp [mkListItem, this]

/-- C7: on a snapshot whose reverse-parent chain from a node reaches the root
in D steps (the node is at depth D, root's direct children being depth 0),
`getItemAncestors` returns exactly the D chain entries, ordered from the
topmost ancestor down to the immediate parent — excluding the root node and
the node itself, which by construction are not part of the chain — and it
fails with a not-found error when the starting id is absent. -/
theorem claim_C7_ancestors_depth :
    (∀ (doc : List DocNode) (nodeId : String) (ch : List String),
       (mget (indexById doc) nodeId).isSome = true →
       ChainTo (indexById doc) nodeId ch →
       ch.Nodup →
       getItemAncestors doc nodeId =
         (Except.ok (ch.filterMap
            (fun i => (mget (indexById doc) i).map mkListItem)),
          [StoreCall.docRead]) ∧
       (ch.filterMap (fun i => (mget (indexById doc) i).map mkListItem)).map
          ListItem.id = ch ∧
       (ch.filterMap (fun i => (mget (indexById doc) i).map mkListItem)).length
          = ch.length) ∧
    (∀ (doc : List DocNode) (nodeId : String),
       mget (indexById doc) nodeId = none →
       getItemAncestors doc nodeId =
         (Except.error ("Node " ++ nodeId ++ " not found"), [StoreCall.docRead])) := by
  constructor
  · intro doc nodeId ch hsome hchain hnd
    have hlt : ch.length < (indexById doc).length :=
      chainTo_length_lt (indexById doc) nodeId ch hchain hnd
    have hpath : findParentPath (indexById doc) (indexById doc).length nodeId = ch :=
      findParentPath_eq_chain (indexById doc) nodeId ch hchain
        (indexById doc).length hlt
    have hmapid :=
      filterMap_items_of_mem (indexById doc) ch
        (chainTo_mem (indexById doc) nodeId ch hchain)
    refine ⟨?_, hmapid, ?_⟩
    · have hne : mget (indexById doc) nodeId ≠ none := by
        intro h
        rw [h] at hsome
        simp at hsome
      simp only [getItemAncestors]
      rw [if_neg (show ¬ ((mget (indexById doc) nodeId).isNone = true) by
        rw [Option.isNone_iff_eq_none]; exact hne)]
      rw [hpath]
    · have := congrArg List.length hmapid
      simpa using this
  · intro doc nodeId hnone
    simp only [getItemAncestors]
    rw [if_pos (by simp [hnone])]

/-- Witness for C7 at a concrete input: over the snapshot
`root → a → b`, the ancestors of `b` (depth 1) are exactly `[a]`; querying a
missing id fails. -/
theorem claim_C7_ancestors_depth_witness :
    (getItemAncestors
        [{ id := "root", children := some ["a"] },
         { id := "a", children := some ["b"] }, { id := "b" }] "b" =
      (Except.ok ((["a"] : List String).filterMap
         (fun i => (mget (indexById
             [{ id := "root", children := some ["a"] },
              { id := "a", children := some ["b"] }, { id := "b" }]) i).map
           mkListItem)),
       [StoreCall.docRead]) ∧
     ((["a"] : List String).filterMap
        (fun i => (mget (indexById
            [{ id := "root", children := some ["a"] },
             { id := "a", children := some ["b"] }, { id := "b" }]) i).map
          mkListItem)).map ListItem.id = ["a"] ∧
     ((["a"] : List String).filterMap
        (fun i => (mget (indexById
            [{ id := "root", children := some ["a"] },
             { id := "a", children := some ["b"] }, { id := "b" }]) i).map
          mkListItem)).length = (["a"] : List String).length) ∧
    getItemAncestors
        [{ id := "root", children := some ["a"] },
         { id := "a", children := some ["b"] }, { id := "b" }] "zz" =
      (Except.error ("Node " ++ "zz" ++ " not found"), [StoreCall.docRead]) :=
  ⟨claim_C7_ancestors_depth.1
      [{ id := "root", children := some ["a"] },
       { id := "a", children := some ["b"] }, { id := "b" }] "b" ["a"]
      rfl
      (by
        have h1 : ChainTo (indexById
            [{ id := "root", children := some ["a"] },
             { id := "a", children := some ["b"] }, { id := "b" }]) "a" [] :=
          ChainTo.base (by rfl)
        have h2 : ChainTo (indexById
            [{ id := "root", children := some ["a"] },
             { id := "a", children := some ["b"] }, { id := "b" }]) "b"
            ([] ++ ["a"]) :=
          ChainTo.step (by rfl) (by decide) h1
        simpa using h2)
      (by decide),
   claim_C7_ancestors_depth.2
      [{ id := "root", children := some ["a"] },
       { id := "a", children := some ["b"] }, { id := "b" }] "zz" rfl⟩

/-! ## Claim C6 -/

/-- Specification-side rose tree used to state the traversal claims: an id
with a forest of children. -/
inductive STree where
  | mk (id : String) (children : List STree)

def STree.id : STree → String
  | STree.mk i _ => i

def STree.children : STree → List STree
  | STree.mk _ cs => cs

mutual

/-- Pre-order ids of a tree: the node before all of its descendants. -/
def STree.preIds : STree → List String
  | STree.mk i cs => i :: STree.preIdsList cs

/-- Pre-order ids of a forest. -/
def STree.preIdsList : List STree → List String
  | [] => []
  | t :: ts => STree.preIds t ++ STree.preIdsList ts

end

mutual

/-- Post-order ids of a tree: all descendants before the node itself. -/
def STree.postIds : STree → List String
  | STree.mk i cs => STree.postIdsList cs ++ [i]

/-- Post-order ids of a forest. -/
def STree.postIdsList : List STree → List String
  | [] => []
  | t :: ts => STree.postIds t ++ STree.postIdsList ts

end

mutual

/-- Height of a tree (a leaf has height 1). -/
def STree.ht : STree → Nat
  | STree.mk _ cs => STree.htList cs + 1

/-- Height of a forest (an empty forest has height 0). -/
def STree.htList : List STree → Nat
  | [] => 0
  | t :: ts => max (STree.ht t) (STree.htList ts)

end

mutual

/-- Expected post-order item list of a tree over the index `m`. -/
def postItems (m : List DocNode) : STree → List ListItem
  | STree.mk i cs =>
      postItemsList m cs ++
        (match mget m i with
         | some n => [mkListItem n]
         | none => [])

/-- Expected post-order item list of a forest over the index `m`. -/
def postItemsList (m : List DocNode) : List STree → List ListItem
  | [] => []
  | t :: ts => postItems m t ++ postItemsList m ts

end

/-- The index `m` represents the tree `t`: the tree's id resolves to a node
whose (defaulted) children list is exactly the ids of `t`'s children, and
recursively so for every child. -/
inductive Agrees (m : List DocNode) : STree → Prop
  | mk {i : String} {cs : List STree} {n : DocNode} :
      mget m i = some n →
      n.children.getD [] = List.map STree.id cs →
      (∀ c ∈ cs, Agrees m c) →
      Agrees m (STree.mk i cs)

theorem collect_cons (m : List DocNode) (fuel : Nat) (i : String)
    (rest : List String) :
    collectDescendants m (fuel + 1) (i :: rest) =
      (match mget m i with
       | none => collectDescendants m (fuel + 1) rest
       | some n =>
           match n.children with
           | none => mkListItem n :: collectDescendants m (fuel + 1) rest
           | some cs =>
               collectDescendants m fuel cs ++
                 (mkListItem n :: collectDescendants m (fuel + 1) rest)) := rfl

theorem perm_post_pre :
    ∀ (N : Nat) (ts : List STree), sizeOf ts ≤ N →
      (STree.postIdsList ts).Perm (STree.preIdsList ts) := by
  intro N
  induction N with
  | zero =>
      intro ts h
      cases ts with
      | nil => simp [STree.postIdsList, STree.preIdsList]
      | cons t ts' => exfalso; simp at h
  | succ N ih =>
      intro ts h
      cases ts with
      | nil => simp [STree.postIdsList, STree.preIdsList]
      | cons t ts' =>
          cases t with
          | mk i cs =>
              have hcs : sizeOf cs ≤ N := by
                have := STree.mk.sizeOf_spec i cs
                simp at h
                omega
              have hts : sizeOf ts' ≤ N := by
                simp at h
                omega
              simp only [STree.postIdsList, STree.preIdsList, STree.postIds,
                STree.preIds]
              have h1 : (STree.postIdsList cs ++ [i]).Perm (i :: STree.preIdsList cs) :=
                (List.perm_append_singleton i (STree.postIdsList cs)).trans
                  ((ih cs hcs).cons i)
              exact h1.append (ih ts' hts)

theorem mapid_postItemsList (m : List DocNode) :
    ∀ (N : Nat) (ts : List STree), sizeOf ts ≤ N →
      (∀ t ∈ ts, Agrees m t) →
      (postItemsList m ts).map ListItem.id = STree.postIdsList ts := by
  intro N
  induction N with
  | zero =>
      intro ts h _
      cases ts with
      | nil => rfl
      | cons t ts' => exfalso; simp at h
  | succ N ih =>
      intro ts h hall
      cases ts with
      | nil => rfl
      | cons t ts' =>
          cases t with
          | mk i cs =>
              have hcs : sizeOf cs ≤ N := by
                have := STree.mk.sizeOf_spec i cs
                simp at h
                omega
              have hts : sizeOf ts' ≤ N := by
                simp at h
                omega
              cases hall _ (List.mem_cons_self _ _) with
              | mk hget hch hcsa =>
                  simp only [postItemsList, postItems, hget, STree.postIdsList,
                    STree.postIds, List.map_append]
                  rw [ih cs hcs hcsa,
                    ih ts' hts (fun x hx => hall x (List.mem_cons_of_mem _ hx))]
                  have hid : (mkListItem _).id = i := mget_id m i _ hget
                  simp [hid]

theorem preIdsList_mem (m : List DocNode) :
    ∀ (N : Nat) (ts : List STree), sizeOf ts ≤ N →
      (∀ t ∈ ts, Agrees m t) →
      ∀ a ∈ STree.preIdsList ts, a ∈ m.map (fun n => n.id) := by
  intro N
  induction N with
  | zero =>
      intro ts h _
      cases ts with
      | nil => simp [STree.preIdsList]
      | cons t ts' => exfalso; simp at h
  | succ N ih =>
      intro ts h hall
      cases ts with
      | nil => simp [STree.preIdsList]
      | cons t ts' =>
          cases t with
          | mk i cs =>
              have hcs : sizeOf cs ≤ N := by
                have := STree.mk.sizeOf_spec i cs
                simp at h
                omega
              have hts : sizeOf ts' ≤ N := by
                simp at h
                omega
              cases hall _ (List.mem_cons_self _ _) with
              | mk hget hch hcsa =>
                  intro a ha
                  simp only [STree.preIdsList, STree.preIds] at ha
                  rcases List.mem_append.mp ha with ha | ha
                  · rcases List.mem_cons.mp ha with ha | ha
                    · subst ha
                      have hn := List.mem_of_find?_eq_some hget
                      have hid := mget_id m a _ hget
                      exact hid ▸ List.mem_map_of_mem (fun n => n.id) hn
                    · exact ih cs hcs hcsa a ha
                  · exact ih ts' hts (fun x hx => hall x (List.mem_cons_of_mem _ hx)) a ha

theorem htList_le_preIds_length :
    ∀ (N : Nat) (ts : List STree), sizeOf ts ≤ N →
      STree.htList ts ≤ (STree.preIdsList ts).length := by
  intro N
  induction N with
  | zero =>
      intro ts h
      cases ts with
      | nil => simp [STree.htList, STree.preIdsList]
      | cons t ts' => exfalso; simp at h
  | succ N ih =>
      intro ts h
      cases ts with
      | nil => simp [STree.htList, STree.preIdsList]
      | cons t ts' =>
          cases t with
          | mk i cs =>
              have hcs : sizeOf cs ≤ N := by
                have := STree.mk.sizeOf_spec i cs
                simp at h
                omega
              have hts : sizeOf ts' ≤ N := by
                simp at h
                omega
              have h1 := ih cs hcs
              have h2 := ih ts' hts
              simp only [STree.htList, STree.ht, STree.preIdsList, STree.preIds,
                List.length_append, List.length_cons]
              omega

theorem nodup_subset_length_le (l : List String) (m : List DocNode)
    (hnd : l.Nodup) (hsub : ∀ a ∈ l, a ∈ m.map (fun n => n.id)) :
    l.length ≤ m.length := by
  have hcard : l.toFinset.card ≤ (m.map (fun n => n.id)).toFinset.card :=
    Finset.card_le_card
      (fun a ha => List.mem_toFinset.mpr (hsub a (List.mem_toFinset.mp ha)))
  have h1 : l.toFinset.card = l.length := List.toFinset_card_of_nodup hnd
  have h2 : (m.map (fun n => n.id)).toFinset.card ≤ m.length := by
    calc (m.map (fun n => n.id)).toFinset.card
          ≤ (m.map (fun n => n.id)).length := List.toFinset_card_le _
      _ = m.length := List.length_map _ _
  omega

theorem collect_agrees (m : List DocNode) :
    ∀ (fuel : Nat) (ts : List STree),
      (∀ t ∈ ts, Agrees m t) → STree.htList ts ≤ fuel →
      collectDescendants m fuel (List.map STree.id ts) = postItemsList m ts := by
  intro fuel
  induction fuel with
  | zero =>
      intro ts hall hht
      cases ts with
      | nil => rfl
      | cons t ts' =>
          exfalso
          cases t with
          | mk i cs => simp [STree.htList, STree.ht] at hht
  | succ f ihf =>
      intro ts
      induction ts with
      | nil => intro _ _; rfl
      | cons t ts' ihts =>
          intro hall hht
          cases t with
          | mk i cs =>
              cases hall _ (List.mem_cons_self _ _) with
              | @mk _ _ n hget hch hcsa =>
                  have hbounds : STree.htList cs ≤ f ∧ STree.htList ts' ≤ f + 1 := by
                    simp only [STree.htList, STree.ht] at hht
                    constructor
                    · have := Nat.max_le.mp hht
                      omega
                    · have := Nat.max_le.mp hht
                      omega
                  have hallts : ∀ x ∈ ts', Agrees m x :=
                    fun x hx => hall x (List.mem_cons_of_mem _ hx)
                  have hmap : List.map STree.id (STree.mk i cs :: ts') =
                      i :: List.map STree.id ts' := rfl
                  rw [hmap, collect_cons, hget]
                  cases hnc : n.children with
                  | none =>
                      have hcs0 : cs = [] := by
                        rw [hnc] at hch
                        simp only [Option.getD_none] at hch
                        exact List.map_eq_nil_iff.mp hch.symm
                      subst hcs0
                      rw [ihts hallts hbounds.2]
                      simp [hnc, postItemsList, postItems, hget]
                  | some l =>
                      have hl : l = List.map STree.id cs := by
                        rw [hnc] at hch
                        simpa using hch
                      simp only [hnc]
                      rw [hl, ihf cs hcsa hbounds.1, ihts hallts hbounds.2]
                      simp [postItemsList, postItems, hget]

/-- C6 (amended): for every snapshot representing a tree at the queried node
(each subtree id resolving, children lists matching, descendant ids pairwise
distinct), `getItemDescendants` returns exactly the K reachable descendants of
that node — K entries, no duplicates, one per reachable descendant — in
depth-first *post-order*: each parent is listed after its own children (the
source pushes an item only after recursing into its children); it fails with
a not-found error when the starting id is absent from the snapshot.  (The
amendment is the traversal order: the claim as frozen says pre-order, parent
before children — see the counterexample.) -/
theorem claim_C6_descendants_postorder :
    (∀ (doc : List DocNode) (nodeId : String) (cs : List STree),
       Agrees (indexById doc) (STree.mk nodeId cs) →
       (STree.preIdsList cs).Nodup →
       getItemDescendants doc nodeId =
         (Except.ok (postItemsList (indexById doc) cs), [StoreCall.docRead]) ∧
       (postItemsList (indexById doc) cs).map ListItem.id = STree.postIdsList cs ∧
       (STree.postIdsList cs).Perm (STree.preIdsList cs) ∧
       (postItemsList (indexById doc) cs).length = (STree.preIdsList cs).length ∧
       ((postItemsList (indexById doc) cs).map ListItem.id).Nodup) ∧
    (∀ (doc : List DocNode) (nodeId : String),
       mget (indexById doc) nodeId = none →
       getItemDescendants doc nodeId =
         (Except.error ("Node " ++ nodeId ++ " not found"), [StoreCall.docRead])) := by
  constructor
  · intro doc nodeId cs hagr hnd
    cases hagr with
    | @mk _ _ n hget hch hcsa =>
        have hmem := preIdsList_mem (indexById doc) (sizeOf cs) cs le_rfl hcsa
        have hlen : (STree.preIdsList cs).length ≤ (indexById doc).length :=
          nodup_subset_length_le (STree.preIdsList cs) (indexById doc) hnd hmem
        have hht : STree.htList cs ≤ (indexById doc).length :=
          le_trans (htList_le_preIds_length (sizeOf cs) cs le_rfl) hlen
        have hmapid := mapid_postItemsList (indexById doc) (sizeOf cs) cs le_rfl hcsa
        have hperm := perm_post_pre (sizeOf cs) cs le_rfl
        refine ⟨?_, hmapid, hperm, ?_, ?_⟩
        · simp only [getItemDescendants, hget]
          cases hnc : n.children with
          | none =>
              have hcs0 : cs = [] := by
                rw [hnc] at hch
                simp only [Option.getD_none] at hch
                exact List.map_eq_nil_iff.mp hch.symm
              subst hcs0
              rfl
          | some l =>
              have hl : l = List.map STree.id cs := by
                rw [hnc] at hch
                simpa using hch
              rw [hl]
              change (Except.ok (collectDescendants (indexById doc)
                  (indexById doc).length (List.map STree.id cs)),
                [StoreCall.docRead]) = _
              rw [collect_agrees (indexById doc) (indexById doc).length cs hcsa hht]
        · have h1 := congrArg List.length hmapid
          simp only [List.length_map] at h1
          rw [h1]
          exact hperm.length_eq
        · rw [hmapid]
          exact (hperm.nodup_iff).mpr hnd
  · intro doc nodeId hnone
    simp only [getItemDescendants, hnone]

/-- C6, counterexample to the claim as frozen: over the snapshot
`X → A → B`, the descendants of `X` are reported as `[B, A]` — each parent
after its children — whereas the claimed pre-order (each parent before its
own children) would be `[A, B]`. -/
theorem claim_C6_counterexample :
    (getItemDescendants
        [{ id := "X", children := some ["A"] },
         { id := "A", children := some ["B"] }, { id := "B" }] "X").1.map
      (List.map ListItem.id) = Except.ok ["B", "A"] ∧
    (["B", "A"] : List String) ≠ ["A", "B"] :=
  ⟨rfl, by decide⟩

/-- Witness for C6 at a concrete input: the snapshot `X → A → B` represented
by the spec tree `X[A[B]]`, and a missing-node failure. -/
theorem claim_C6_descendants_postorder_witness :
    (getItemDescendants
        [{ id := "X", children := some ["A"] },
         { id := "A", children := some ["B"] }, { id := "B" }] "X" =
      (Except.ok (postItemsList (indexById
          [{ id := "X", children := some ["A"] },
           { id := "A", children := some ["B"] }, { id := "B" }])
          [STree.mk "A" [STree.mk "B" []]]),
       [StoreCall.docRead]) ∧
     (postItemsList (indexById
          [{ id := "X", children := some ["A"] },
           { id := "A", children := some ["B"] }, { id := "B" }])
          [STree.mk "A" [STree.mk "B" []]]).map ListItem.id =
        STree.postIdsList [STree.mk "A" [STree.mk "B" []]] ∧
     (STree.postIdsList [STree.mk "A" [STree.mk "B" []]]).Perm
        (STree.preIdsList [STree.mk "A" [STree.mk "B" []]]) ∧
     (postItemsList (indexById
          [{ id := "X", children := some ["A"] },
           { id := "A", children := some ["B"] }, { id := "B" }])
          [STree.mk "A" [STree.mk "B" []]]).length =
        (STree.preIdsList [STree.mk "A" [STree.mk "B" []]]).length ∧
     ((postItemsList (indexById
          [{ id := "X", children := some ["A"] },
           { id := "A", children := some ["B"] }, { id := "B" }])
          [STree.mk "A" [STree.mk "B" []]]).map ListItem.id).Nodup) ∧
    getItemDescendants
        [{ id := "X", children := some ["A"] },
         { id := "A", children := some ["B"] }, { id := "B" }] "zz" =
      (Except.error ("Node " ++ "zz" ++ " not found"), [StoreCall.docRead]) :=
  ⟨claim_C6_descendants_postorder.1
      [{ id := "X", children := some ["A"] },
       { id := "A", children := some ["B"] }, { id := "B" }] "X"
      [STree.mk "A" [STree.mk "B" []]]
      (by
        have hB : Agrees (indexById
            [{ id := "X", children := some ["A"] },
             { id := "A", children := some ["B"] }, { id := "B" }])
            (STree.mk "B" []) :=
          Agrees.mk (by rfl) (by rfl) (by intro c hc; cases hc)
        have hA : Agrees (indexById
            [{ id := "X", children := some ["A"] },
             { id := "A", children := some ["B"] }, { id := "B" }])
            (STree.mk "A" [STree.mk "B" []]) :=
          Agrees.mk (by rfl) (by rfl)
            (by
              intro c hc
              rw [List.mem_singleton] at hc
              exact hc ▸ hB)
        exact Agrees.mk (by rfl) (by rfl)
          (by
            intro c hc
            rw [List.mem_singleton] at hc
            exact hc ▸ hA))
      (by decide),
   claim_C6_descendants_postorder.2
      [{ id := "X", children := some ["A"] },
       { id := "A", children := some ["B"] }, { id := "B" }] "zz" rfl⟩

/-! ## Claim C8 -/

/-- The cumulative per-node effect of deleting a batch of ids. -/
def chFilterIds (D : List String) (n : DocNode) : DocNode :=
  D.foldl (fun n d => deleteNodeUpdate d n) n

theorem deleteNodeUpdate_id (d : String) (n : DocNode) :
    (deleteNodeUpdate d n).id = n.id := rfl

theorem chFilterIds_id (D : List String) :
    ∀ n : DocNode, (chFilterIds D n).id = n.id := by
  induction D with
  | nil => intro n; rfl
  | cons d D ih => intro n; exact ih (deleteNodeUpdate d n)

theorem chFilterIds_checked (D : List String) :
    ∀ n : DocNode, (chFilterIds D n).checked = n.checked := by
  induction D with
  | nil => intro n; rfl
  | cons d D ih => intro n; exact ih (deleteNodeUpdate d n)

theorem chFilterIds_content (D : List String) :
    ∀ n : DocNode, (chFilterIds D n).content = n.content := by
  induction D with
  | nil => intro n; rfl
  | cons d D ih => intro n; exact ih (deleteNodeUpdate d n)

theorem deleteNodeUpdate_children (d : String) (n : DocNode) :
    (deleteNodeUpdate d n).children.getD [] =
      (n.children.getD []).filter (fun c => !(c == d)) := by
  unfold deleteNodeUpdate
  cases n.children with
  | none => rfl
  | some cs => rfl

theorem chFilterIds_children (D : List String) :
    ∀ n : DocNode, (chFilterIds D n).children.getD [] =
      (n.children.getD []).filter (fun c => !(D.contains c)) := by
  induction D with
  | nil =>
      intro n
      show n.children.getD [] = _
      rw [List.filter_eq_self.mpr]
      intro a _
      simp
  | cons d D ih =>
      intro n
      show (chFilterIds D (deleteNodeUpdate d n)).children.getD [] = _
      rw [ih (deleteNodeUpdate d n), deleteNodeUpdate_children, List.filter_filter]
      have hpt : ∀ c : String,
          ((!(D.contains c)) && (!(c == d))) = (!((d :: D).contains c)) := by
        intro c
        rw [List.contains_cons, Bool.not_or, Bool.and_comm]
      exact List.filter_congr (fun c _ => hpt c)

theorem find?_filter_ne (d x : String) (hx : x ≠ d) :
    ∀ l : List DocNode,
      (l.filter (fun n => !(n.id == d))).find? (fun n => n.id == x) =
        l.find? (fun n => n.id == x) := by
  intro l
  induction l with
  | nil => rfl
  | cons a l ih =>
      by_cases hid : a.id = d
      · have h1 : (!(a.id == d)) = false := by simp [hid]
        have h2 : (a.id == x) = false := by
          simp only [beq_eq_false_iff_ne, ne_eq]
          intro he
          exact hx (he ▸ hid.symm ▸ rfl)
        simp only [List.filter_cons, h1, if_false, List.find?_cons, h2]
        exact ih
      · have h1 : (!(a.id == d)) = true := by simp [hid]
        simp only [List.filter_cons, h1, if_true, List.find?_cons]
        cases hax : (a.id == x) with
        | true => rfl
        | false => exact ih

theorem find?_map_id_preserving (f : DocNode → DocNode)
    (hf : ∀ n, (f n).id = n.id) (x : String) (l : List DocNode) :
    (l.map f).find? (fun n => n.id == x) =
      (l.find? (fun n => n.id == x)).map f := by
  have hcomp : ((fun n : DocNode => n.id == x) ∘ f) =
      (fun n : DocNode => n.id == x) := by
    funext n
    simp [Function.comp, hf]
  rw [List.find?_map, hcomp]

theorem applyDeletes_find? :
    ∀ (D : List String) (doc : List DocNode) (x : String), x ∉ D →
      (applyDeletes doc D).find? (fun n => n.id == x) =
        (doc.find? (fun n => n.id == x)).map (chFilterIds D) := by
  intro D
  induction D with
  | nil =>
      intro doc x _
      show doc.find? _ = _
      cases doc.find? (fun n => n.id == x) with
      | none => rfl
      | some n => rfl
  | cons d D ih =>
      intro doc x hx
      have hxD : x ∉ D := fun h => hx (List.mem_cons_of_mem d h)
      have hxd : x ≠ d := fun h => hx (h ▸ List.mem_cons_self d D)
      show (applyDeletes (applyDelete doc d) D).find? _ = _
      rw [ih (applyDelete doc d) x hxD]
      unfold applyDelete
      rw [find?_map_id_preserving (deleteNodeUpdate d) (fun n => rfl) x,
        find?_filter_ne d x hxd, Option.map_map]
      cases doc.find? (fun n => n.id == x) with
      | none => rfl
      | some n => rfl

theorem applyDelete_ids_sublist (doc : List DocNode) (d : String) :
    ((applyDelete doc d).map (fun n => n.id)).Sublist (doc.map (fun n => n.id)) := by
  unfold applyDelete
  rw [List.map_map]
  have : ((fun n : DocNode => n.id) ∘ deleteNodeUpdate d) = fun n : DocNode => n.id := by
    funext n
    rfl
  rw [this]
  exact (List.filter_sublist doc).map (fun n => n.id)

theorem applyDeletes_ids_nodup :
    ∀ (D : List String) (doc : List DocNode),
      (doc.map (fun n => n.id)).Nodup →
      ((applyDeletes doc D).map (fun n => n.id)).Nodup := by
  intro D
  induction D with
  | nil => intro doc h; exact h
  | cons d D ih =>
      intro doc h
      exact ih (applyDelete doc d) ((applyDelete_ids_sublist doc d).nodup h)

theorem post_items_pairs (doc : List DocNode) (D : List String)
    (hpost : ∀ x, x ∉ D →
      (applyDeletes doc D).find? (fun n => n.id == x) =
        (doc.find? (fun n => n.id == x)).map (chFilterIds D)) :
    ∀ cs' : List String,
      (∀ c ∈ cs', (c ∈ D ↔
        ∃ n, doc.find? (fun x => x.id == c) = some n ∧
          n.checked.getD false = true)) →
      (((cs'.filter (fun c => !(D.contains c))).filterMap
          (fun c => ((applyDeletes doc D).find? (fun n => n.id == c)).map mkListItem)).map
        (fun it => (it.id, it.checked)))
        = (((cs'.filterMap (fun c => (doc.find? (fun n => n.id == c)).map mkListItem)).filter
            (fun it => !it.checked)).map (fun it => (it.id, it.checked))) := by
  intro cs'
  induction cs' with
  | nil => intro _; rfl
  | cons c rest ih =>
      intro hall
      have hrest := fun x hx => hall x (List.mem_cons_of_mem c hx)
      have hc := hall c (List.mem_cons_self c rest)
      by_cases hcD : c ∈ D
      · obtain ⟨n, hfn, hchk⟩ := hc.mp hcD
        have hfilter : (c :: rest).filter (fun x => !(D.contains x)) =
            rest.filter (fun x => !(D.contains x)) := by
          simp [List.filter_cons, hcD]
        rw [hfilter, ih hrest]
        have : (c :: rest).filterMap
            (fun x => (doc.find? (fun n => n.id == x)).map mkListItem) =
            mkListItem n :: rest.filterMap
              (fun x => (doc.find? (fun n => n.id == x)).map mkListItem) := by
          simp [List.filterMap_cons, hfn]
        rw [this]
        have hdrop : (!(mkListItem n).checked) = false := by
          simp [mkListItem, hchk]
        simp [List.filter_cons, hdrop]
      · have hfilter : (c :: rest).filter (fun x => !(D.contains x)) =
            c :: rest.filter (fun x => !(D.contains x)) := by
          simp [List.filter_cons, hcD]
        rw [hfilter]
        cases hfc : doc.find? (fun n => n.id == c) with
        | none =>
            have hpc := hpost c hcD
            rw [hfc] at hpc
            simp only [Option.map_none'] at hpc
            simp only [List.filterMap_cons, hpc, hfc, Option.map_none']
            exact ih hrest
        | some n =>
            have hpc := hpost c hcD
            rw [hfc] at hpc
            simp only [Option.map_some'] at hpc
            have hnchk : n.checked.getD false = false := by
              by_contra hne
              have : n.checked.getD false = true := by
                cases hvv : n.checked.getD false with
                | true => rfl
                | false => exact absurd hvv hne
              exact hcD (hc.mpr ⟨n, hfc, this⟩)
            have hkeep : (!(mkListItem n).checked) = true := by
              simp [mkListItem, hnchk]
            simp only [List.filterMap_cons, hpc, hfc, Option.map_some',
              List.map_cons, List.filter_cons, hkeep, if_true]
            rw [ih hrest]
            simp [mkListItem, chFilterIds_id, chFilterIds_checked, hnchk]

/-- The ids `clearList` deletes: checked top-level items, in order. -/
def checkedTopIds (doc : List DocNode) : List String :=
  ((getItemsPure doc).filter (fun i => i.checked)).map (fun i => i.id)

theorem checkedTopIds_subset (doc : List DocNode) (rootN : DocNode)
    (hids : indexById doc = doc)
    (hroot : mget (indexById doc) "root" = some rootN) :
    ∀ a ∈ checkedTopIds doc, a ∈ rootN.children.getD [] := by
  intro a ha
  have hroot2 : mget doc "root" = some rootN := by rw [hids] at hroot; exact hroot
  unfold checkedTopIds at ha
  simp only [getItemsPure, hids, hroot2] at ha
  obtain ⟨it, hit, hid⟩ := List.mem_map.mp ha
  obtain ⟨hitmem, _⟩ := List.mem_filter.mp hit
  obtain ⟨n, hnmem, hmk⟩ := List.mem_map.mp hitmem
  obtain ⟨c₀, hc₀, hfind⟩ := List.mem_filterMap.mp hnmem
  have hnid : n.id = c₀ := mget_id doc c₀ n hfind
  have hitid : it.id = n.id := by rw [← hmk]; rfl
  rw [← hid, hitid, hnid]
  exact hc₀

theorem checkedTopIds_spec (doc : List DocNode) (rootN : DocNode)
    (hids : indexById doc = doc)
    (hroot : mget (indexById doc) "root" = some rootN) :
    ∀ c ∈ rootN.children.getD [],
      (c ∈ checkedTopIds doc ↔
        ∃ n, doc.find? (fun x => x.id == c) = some n ∧
          n.checked.getD false = true) := by
  intro c hc
  constructor
  · intro hcD
    have hroot2 : mget doc "root" = some rootN := by rw [hids] at hroot; exact hroot
    unfold checkedTopIds at hcD
    simp only [getItemsPure, hids, hroot2] at hcD
    obtain ⟨it, hit, hid⟩ := List.mem_map.mp hcD
    obtain ⟨hitmem, hchk⟩ := List.mem_filter.mp hit
    obtain ⟨n, hnmem, hmk⟩ := List.mem_map.mp hitmem
    obtain ⟨c₀, hc₀, hfind⟩ := List.mem_filterMap.mp hnmem
    have hnid : n.id = c₀ := mget_id doc c₀ n hfind
    have hitid : it.id = n.id := by rw [← hmk]; rfl
    have hceq : c = c₀ := by rw [← hid, hitid, hnid]
    refine ⟨n, ?_, ?_⟩
    · rw [hceq]
      exact hfind
    · have h1 : it.checked = n.checked.getD false := by rw [← hmk]; rfl
      rw [← h1]
      simpa using hchk
  · rintro ⟨n, hfind, hchk⟩
    have hroot2 : mget doc "root" = some rootN := by rw [hids] at hroot; exact hroot
    unfold checkedTopIds
    simp only [getItemsPure, hids, hroot2]
    apply List.mem_map.mpr
    refine ⟨mkListItem n, ?_, ?_⟩
    · apply List.mem_filter.mpr
      constructor
      · apply List.mem_map_of_mem
        exact List.mem_filterMap.mpr ⟨c, hc, hfind⟩
      · simpa [mkListItem] using hchk
    · show (mkListItem n).id = c
      have : (mkListItem n).id = n.id := rfl
      rw [this]
      exact mget_id doc c n hfind

/-- C8 (amended): for every list whose snapshot (with distinct ids, a root
node, and the root not its own child) has M checked and U unchecked
*top-level* items, `clearList` issues delete edits for exactly the M checked
top-level items, in order, and returns M (issuing no edit call when M is 0);
after the store applies those deletes (spec-modelled `applyDeletes`), the
top-level items are exactly the U unchecked ones — same ids, same order — and
all of them are unchecked.  (The amendment restricts the count to top-level
items: checked items nested deeper are not deleted — see the
counterexample.) -/
theorem claim_C8_clearList_checked (doc : List DocNode) (rootN : DocNode)
    (hnd : (doc.map (fun n => n.id)).Nodup)
    (hroot : mget (indexById doc) "root" = some rootN)
    (hnr : "root" ∉ rootN.children.getD []) :
    clearList doc =
      (Except.ok (checkedTopIds doc).length,
       StoreCall.docRead ::
         (if (checkedTopIds doc).length = 0 then []
          else [StoreCall.docEdit ((checkedTopIds doc).map DocEditChange.delete)])) ∧
    (getItemsPure (applyDeletes doc (checkedTopIds doc))).map
        (fun it => (it.id, it.checked)) =
      ((getItemsPure doc).filter (fun i => !i.checked)).map
        (fun it => (it.id, it.checked)) ∧
    (getItemsPure (applyDeletes doc (checkedTopIds doc))).length =
      ((getItemsPure doc).filter (fun i => !i.checked)).length ∧
    ∀ it ∈ getItemsPure (applyDeletes doc (checkedTopIds doc)),
      it.checked = false := by
  have hids := indexById_eq_self doc hnd
  have hroot2 : mget doc "root" = some rootN := by rw [hids] at hroot; exact hroot
  have hsubD := checkedTopIds_subset doc rootN hids hroot
  have hrootD : "root" ∉ checkedTopIds doc := fun h => hnr (hsubD _ h)
  have hdich := checkedTopIds_spec doc rootN hids hroot
  have hpost := fun x hx => applyDeletes_find? (checkedTopIds doc) doc x hx
  have hpostnodup := applyDeletes_ids_nodup (checkedTopIds doc) doc hnd
  have hpostids := indexById_eq_self _ hpostnodup
  have hfindroot : (applyDeletes doc (checkedTopIds doc)).find?
      (fun n => n.id == "root") =
      some (chFilterIds (checkedTopIds doc) rootN) := by
    rw [hpost "root" hrootD]
    rw [show doc.find? (fun n => n.id == "root") = some rootN from hroot2]
    rfl
  have hfindrootM : mget (applyDeletes doc (checkedTopIds doc)) "root" =
      some (chFilterIds (checkedTopIds doc) rootN) := hfindroot
  have hpostitems : getItemsPure (applyDeletes doc (checkedTopIds doc)) =
      ((rootN.children.getD []).filter
          (fun c => !((checkedTopIds doc).contains c))).filterMap
        (fun c => ((applyDeletes doc (checkedTopIds doc)).find?
          (fun n => n.id == c)).map mkListItem) := by
    simp only [getItemsPure, hpostids, hfindrootM]
    rw [chFilterIds_children, List.map_filterMap]
    rfl
  have hitems : getItemsPure doc =
      (rootN.children.getD []).filterMap
        (fun c => (doc.find? (fun n => n.id == c)).map mkListItem) := by
    simp only [getItemsPure, hids, hroot2]
    rw [List.map_filterMap]
    rfl
  have hpairs := post_items_pairs doc (checkedTopIds doc) hpost
    (rootN.children.getD []) hdich
  rw [← hpostitems, ← hitems] at hpairs
  refine ⟨?_, hpairs, ?_, ?_⟩
  · show (if (checkedTopIds doc).length = 0 then
        ((Except.ok 0 : Except String Nat), [StoreCall.docRead])
      else
        (Except.ok (checkedTopIds doc).length,
         [StoreCall.docRead,
          StoreCall.docEdit ((checkedTopIds doc).map DocEditChange.delete)])) = _
    by_cases h0 : (checkedTopIds doc).length = 0
    · rw [if_pos h0, if_pos h0, h0]
    · rw [if_neg h0, if_neg h0]
  · have h1 := congrArg List.length hpairs
    simpa using h1
  · intro it hit
    have hm : (it.id, it.checked) ∈
        (getItemsPure (applyDeletes doc (checkedTopIds doc))).map
          (fun it => (it.id, it.checked)) :=
      List.mem_map_of_mem _ hit
    rw [hpairs] at hm
    obtain ⟨it', hit', heq⟩ := List.mem_map.mp hm
    have hck : it'.checked = it.checked := congrArg Prod.snd heq
    have hfl := (List.mem_filter.mp hit').2
    have : it'.checked = false := by simpa using hfl
    rw [← hck, this]

/-- C8, counterexample to the claim as frozen: the snapshot
`root → A(unchecked) → B(checked)` contains one checked item, but the checked
item is nested (not top-level), so `clearList` deletes nothing and returns 0
instead of M = 1, issuing no delete edit. -/
theorem claim_C8_counterexample :
    (([{ id := "root", children := some ["A"] },
       { id := "A", checked := some false, children := some ["B"] },
       { id := "B", checked := some true }] : List DocNode).filter
      (fun n => !(n.id == "root") && n.checked.getD false)).length = 1 ∧
    clearList
      [{ id := "root", children := some ["A"] },
       { id := "A", checked := some false, children := some ["B"] },
       { id := "B", checked := some true }] =
      (Except.ok 0, [StoreCall.docRead]) ∧
    (0 : Nat) ≠ 1 :=
  ⟨rfl, rfl, by decide⟩

/-- Witness for C8 at a concrete input: the snapshot
`root → [a(checked), b(unchecked)]`. -/
theorem claim_C8_clearList_checked_witness :
    clearList
        [{ id := "root", children := some ["a", "b"] },
         { id := "a", checked := some true },
         { id := "b", checked := some false }] =
      (Except.ok (checkedTopIds
          [{ id := "root", children := some ["a", "b"] },
           { id := "a", checked := some true },
           { id := "b", checked := some false }]).length,
       StoreCall.docRead ::
         (if (checkedTopIds
             [{ id := "root", children := some ["a", "b"] },
              { id := "a", checked := some true },
              { id := "b", checked := some false }]).length = 0 then []
          else [StoreCall.docEdit ((checkedTopIds
             [{ id := "root", children := some ["a", "b"] },
              { id := "a", checked := some true },
              { id := "b", checked := some false }]).map DocEditChange.delete)])) ∧
    (getItemsPure (applyDeletes
        [{ id := "root", children := some ["a", "b"] },
         { id := "a", checked := some true },
         { id := "b", checked := some false }]
        (checkedTopIds
          [{ id := "root", children := some ["a", "b"] },
           { id := "a", checked := some true },
           { id := "b", checked := some false }]))).map
      (fun it => (it.id, it.checked)) =
      ((getItemsPure
          [{ id := "root", children := some ["a", "b"] },
           { id := "a", checked := some true },
           { id := "b", checked := some false }]).filter
        (fun i => !i.checked)).map (fun it => (it.id, it.checked)) ∧
    (getItemsPure (applyDeletes
        [{ id := "root", children := some ["a", "b"] },
         { id := "a", checked := some true },
         { id := "b", checked := some false }]
        (checkedTopIds
          [{ id := "root", children := some ["a", "b"] },
           { id := "a", checked := some true },
           { id := "b", checked := some false }]))).length =
      ((getItemsPure
          [{ id := "root", children := some ["a", "b"] },
           { id := "a", checked := some true },
           { id := "b", checked := some false }]).filter
        (fun i => !i.checked)).length ∧
    ∀ it ∈ getItemsPure (applyDeletes
        [{ id := "root", children := some ["a", "b"] },
         { id := "a", checked := some true },
         { id := "b", checked := some false }]
        (checkedTopIds
          [{ id := "root", children := some ["a", "b"] },
           { id := "a", checked := some true },
           { id := "b", checked := some false }])),
      it.checked = false :=
  claim_C8_clearList_checked
    [{ id := "root", children := some ["a", "b"] },
     { id := "a", checked := some true },
     { id := "b", checked := some false }]
    { id := "root", children := some ["a", "b"] }
    (by decide) rfl (by decide)

/-! ## Claim C1 -/

/-- Every entry's recorded parent index points at an earlier entry. -/
def GoodParents (flat : List FlatEntry) : Prop :=
  ∀ i e q, flat.get? i = some e → e.parentIndex = some q → q < i

theorem goodParents_append_entry (acc : List FlatEntry) (n : TreeNode)
    (depth : Nat) (pIdx : Option Nat)
    (hp : ∀ q, pIdx = some q → q < acc.length)
    (hacc : GoodParents acc) :
    GoodParents (acc ++ [{ node := n, depth := depth, parentIndex := pIdx }]) := by
  intro i e q hget hq
  by_cases hi : i < acc.length
  · rw [List.get?_append hi] at hget
    exact hacc i e q hget hq
  · have hge : acc.length ≤ i := Nat.le_of_not_lt hi
    rw [List.get?_append_right hge] at hget
    have hlt : i - acc.length < 1 := by
      by_contra hc
      rw [List.get?_eq_none.mpr (by simpa using Nat.le_of_not_lt hc)] at hget
      exact Option.noConfusion hget
    have hieq : i = acc.length := by omega
    have h0 : i - acc.length = 0 := by omega
    rw [h0] at hget
    simp only [List.get?_cons_zero] at hget
    have he : e = { node := n, depth := depth, parentIndex := pIdx } :=
      (Option.some.inj hget).symm
    rw [he] at hq
    have := hp q hq
    omega

theorem flattenTree_length_le (depth : Nat) (pIdx : Option Nat)
    (l : List TreeNode) (acc : List FlatEntry) :
    acc.length ≤ (flattenTree depth pIdx l acc).length := by
  obtain ⟨t, ht⟩ := flattenTree_prefix (sizeOf l) l le_rfl depth pIdx acc
  rw [ht]
  simp

theorem flattenTree_goodParents :
    ∀ (N : Nat) (l : List TreeNode), sizeOf l ≤ N →
      ∀ (depth : Nat) (pIdx : Option Nat) (acc : List FlatEntry),
        (∀ q, pIdx = some q → q < acc.length) → GoodParents acc →
        GoodParents (flattenTree depth pIdx l acc) := by
  intro N
  induction N with
  | zero =>
      intro l hl depth pIdx acc hp hacc
      cases l with
      | nil => simpa [flattenTree] using hacc
      | cons n rest => exfalso; simp at hl
  | succ N ih =>
      intro l hl depth pIdx acc hp hacc
      cases l with
      | nil => simpa [flattenTree] using hacc
      | cons n rest =>
          cases n with
          | mk c no ch cb h col cs =>
              have hcs : sizeOf cs ≤ N := by
                have h1 := TreeNode.mk.sizeOf_spec c no ch cb h col cs
                simp at hl
                omega
              have hrest : sizeOf rest ≤ N := by
                simp at hl
                omega
              rw [flattenTree]
              have hacc1 : GoodParents (acc ++
                  [{ node := TreeNode.mk c no ch cb h col cs,
                     depth := depth, parentIndex := pIdx }]) :=
                goodParents_append_entry acc _ depth pIdx hp hacc
              have hlen1 : acc.length <
                  (acc ++
                    [({ node := TreeNode.mk c no ch cb h col cs,
                        depth := depth, parentIndex := pIdx } : FlatEntry)]).length := by
                simp
              by_cases hc : cs.length > 0
              · simp only [hc, if_true]
                have hacc2 : GoodParents (flattenTree (depth + 1) (some acc.length) cs
                    (acc ++
                      [{ node := TreeNode.mk c no ch cb h col cs,
                         depth := depth, parentIndex := pIdx }])) :=
                  ih cs hcs (depth + 1) (some acc.length) _
                    (fun q hq => by cases hq; exact hlen1) hacc1
                have hlen2 : acc.length ≤
                    (flattenTree (depth + 1) (some acc.length) cs
                      (acc ++
                        [{ node := TreeNode.mk c no ch cb h col cs,
                           depth := depth, parentIndex := pIdx }])).length :=
                  le_trans (Nat.le_of_lt hlen1) (flattenTree_length_le _ _ _ _)
                exact ih rest hrest depth pIdx _
                  (fun q hq => lt_of_lt_of_le (hp q hq) hlen2) hacc2
              · simp only [hc, if_false]
                exact ih rest hrest depth pIdx _
                  (fun q hq => lt_of_lt_of_le (hp q hq) (Nat.le_of_lt hlen1)) hacc1

/-- The move batch the claim describes: one move per flattened entry with a
recorded parent index, targeting the parent's created id, at a sibling index
equal to the number of earlier flattened entries sharing that parent index. -/
def specMoves (flat : List FlatEntry) (ids : List String) : List DocEditChange :=
  flat.enum.filterMap fun p =>
    p.2.parentIndex.map fun q =>
      DocEditChange.move (ids.getD p.1 "") (ids.getD q "")
        (countEarlierSiblings flat p.1 q)

/-- The returned roots the claim describes: the created ids of the flattened
entries with no recorded parent, in flattened order. -/
def specRoots (flat : List FlatEntry) (ids : List String) : List String :=
  (flat.enum.filter (fun p => p.2.parentIndex.isNone)).map
    (fun p => ids.getD p.1 "")

theorem buildOpsAux_ok (flat : List FlatEntry) (ids : List String) :
    ∀ l : List (Nat × FlatEntry),
      (∀ p ∈ l, ∀ q, p.2.parentIndex = some q → ids.getD q "" ≠ "") →
      buildOpsAux flat ids l = Except.ok (l.filterMap (fun p =>
        p.2.parentIndex.map (fun q =>
          ({ nodeId := ids.getD p.1 "", newParent := some (ids.getD q ""),
             newIndex := countEarlierSiblings flat p.1 q } :
            RestructureOperation)))) := by
  intro l
  induction l with
  | nil => intro _; rfl
  | cons p rest ih =>
      intro hall
      have hrest := fun x hx => hall x (List.mem_cons_of_mem p hx)
      cases hq : p.2.parentIndex with
      | none =>
          simp only [buildOpsAux, hq, List.filterMap_cons, Option.map_none']
          exact ih hrest
      | some q =>
          have hne : ids.getD q "" ≠ "" := hall p (List.mem_cons_self p rest) q hq
          have hbeq : ((ids.getD q "") == "") = false := by
            simpa using hne
          simp only [buildOpsAux, hq, hbeq, Bool.false_eq_true, if_false,
            List.filterMap_cons, Option.map_some']
          rw [ih hrest]

theorem rootNodeIds_eq_specRoots (flat : List FlatEntry) (ids : List String)
    (hlen : ids.length = flat.length)
    (hne : ∀ x ∈ ids, x ≠ "") :
    rootNodeIds flat ids = specRoots flat ids := by
  unfold rootNodeIds specRoots
  have hmem : ∀ p ∈ flat.enum, p.1 < ids.length := by
    intro p hp
    rcases p with ⟨i, e⟩
    have h1 : flat.get? i = some e := List.mem_enum_iff_get?.mp hp
    have h2 : i < flat.length := (List.get?_eq_some.mp h1).1
    omega
  revert hmem
  generalize flat.enum = l
  intro hmem
  induction l with
  | nil => rfl
  | cons p rest ih =>
      have hprest := fun x hx => hmem x (List.mem_cons_of_mem p hx)
      have hp1 : p.1 < ids.length := hmem p (List.mem_cons_self p rest)
      cases hq : p.2.parentIndex with
      | some q =>
          simp only [List.filterMap_cons, List.filter_cons, hq,
            Option.isNone_some, Bool.false_eq_true, if_false]
          exact ih hprest
      | none =>
          have hget : ids.get? p.1 = some (ids.getD p.1 "") := by
            rw [List.getD_eq_getElem?_getD]
            rw [List.get?_eq_getElem?]
            cases hgg : ids[p.1]? with
            | none =>
                exfalso
                rw [List.getElem?_eq_none_iff] at hgg
                omega
            | some v => rfl
          have hvne : ids.getD p.1 "" ≠ "" := by
            apply hne
            have := List.get?_mem hget
            exact this
          have hbeq : ((ids.getD p.1 "") == "") = false := by simpa using hvne
          simp only [List.filterMap_cons, List.filter_cons, hq,
            Option.isNone_none, if_true, hget, hbeq, Bool.false_eq_true,
            if_false, List.map_cons]
          rw [ih hprest]

theorem get?_getD_of_lt (ids : List String) (q : Nat) (h : q < ids.length) :
    ids.get? q = some (ids.getD q "") := by
  rw [List.getD_eq_getElem?_getD, List.get?_eq_getElem?]
  cases hgg : ids[q]? with
  | none =>
      exfalso
      rw [List.getElem?_eq_none_iff] at hgg
      omega
  | some v => rfl

theorem getD_mem_of_lt (ids : List String) (q : Nat) (h : q < ids.length) :
    ids.getD q "" ∈ ids :=
  List.get?_mem (get?_getD_of_lt ids q h)

theorem restructureChanges_buildOps (flat : List FlatEntry) (ids : List String) :
    restructureChanges (flat.enum.filterMap (fun p =>
      p.2.parentIndex.map (fun q =>
        ({ nodeId := ids.getD p.1 "", newParent := some (ids.getD q ""),
           newIndex := countEarlierSiblings flat p.1 q } :
          RestructureOperation)))) = specMoves flat ids := by
  unfold restructureChanges specMoves
  rw [List.map_filterMap]
  congr 1
  funext p
  cases hq : p.2.parentIndex with
  | none => rfl
  | some q => rfl

/-- C1: for every call with a non-empty intent tree, answered by the store
with one non-empty created id per flattened entry (all of which exist in the
second read's snapshot), the restructure batch gives each flattened entry
that has a recorded parent index a move to its parent's created id at a
target sibling index equal to the number of earlier entries of the flattened
(pre-order) list that share the same parent index, one move per such entry in
flattened order (`specMoves`), and the operation returns exactly the created
identifiers of the flattened entries that have no recorded parent, in
flattened order (`specRoots`). -/
theorem claim_C1_createListHierarchically (doc1 : List DocNode)
    (respIds : List String) (doc2 : List DocNode) (tree : List TreeNode)
    (htree : tree ≠ [])
    (hlen : respIds.length = (flattenTree 0 none tree []).length)
    (hne : ∀ x ∈ respIds, x ≠ "")
    (hval : ∀ x ∈ respIds, (mget (indexById doc2) x).isSome = true) :
    createListHierarchically doc1 respIds doc2 tree =
      (Except.ok (specRoots (flattenTree 0 none tree []) respIds),
       [StoreCall.docRead,
        StoreCall.docEdit (insertChanges "root" (getRootChildrenCount doc1) 0
          (createRequests (flattenTree 0 none tree [])))] ++
       (if specMoves (flattenTree 0 none tree []) respIds = [] then []
        else [StoreCall.docRead,
              StoreCall.docEdit (specMoves (flattenTree 0 none tree []) respIds)])) ∧
    issuedMoves (createListHierarchically doc1 respIds doc2 tree).2 =
      specMoves (flattenTree 0 none tree []) respIds := by
  have hflatne : flattenTree 0 none tree [] ≠ [] := flattenTree_ne_nil tree htree
  have hreqne : createRequests (flattenTree 0 none tree []) ≠ [] := by
    intro h
    have := createRequests_length (flattenTree 0 none tree [])
    rw [h] at this
    exact hflatne (List.length_eq_zero.mp this.symm)
  have haii := addItemsInternal_ok doc1 respIds
    (createRequests (flattenTree 0 none tree [])) hreqne
    (by rw [createRequests_length]; exact hlen)
  have hgood : GoodParents (flattenTree 0 none tree []) :=
    flattenTree_goodParents (sizeOf tree) tree le_rfl 0 none []
      (fun q hq => Option.noConfusion hq)
      (fun i e q hget => absurd hget (by simp))
  have hmemenum : ∀ p ∈ (flattenTree 0 none tree []).enum,
      p.1 < (flattenTree 0 none tree []).length := by
    intro p hp
    rcases p with ⟨i, e⟩
    have h1 := List.mem_enum_iff_get?.mp hp
    exact (List.get?_eq_some.mp h1).1
  have hgoodenum : ∀ p ∈ (flattenTree 0 none tree []).enum,
      ∀ q, p.2.parentIndex = some q → q < p.1 := by
    intro p hp q hq
    rcases p with ⟨i, e⟩
    have h1 := List.mem_enum_iff_get?.mp hp
    exact hgood i e q h1 hq
  have hbuild := buildOpsAux_ok (flattenTree 0 none tree []) respIds
    (flattenTree 0 none tree []).enum
    (by
      intro p hp q hq
      have hq1 : q < p.1 := hgoodenum p hp q hq
      have hq2 : q < respIds.length := by
        have := hmemenum p hp
        omega
      exact hne _ (getD_mem_of_lt respIds q hq2))
  have hchanges := restructureChanges_buildOps (flattenTree 0 none tree []) respIds
  have hopsvalid : ∀ op ∈ (flattenTree 0 none tree []).enum.filterMap (fun p =>
      p.2.parentIndex.map (fun q =>
        ({ nodeId := respIds.getD p.1 "", newParent := some (respIds.getD q ""),
           newIndex := countEarlierSiblings (flattenTree 0 none tree []) p.1 q } :
          RestructureOperation))), ValidOp (indexById doc2) op := by
    intro op hop
    obtain ⟨p, hp, heq⟩ := List.mem_filterMap.mp hop
    cases hq : p.2.parentIndex with
    | none => rw [hq] at heq; exact Option.noConfusion heq
    | some q =>
        rw [hq] at heq
        simp only [Option.map_some'] at heq
        have hp1 : p.1 < respIds.length := by
          have := hmemenum p hp
          omega
        have hq2 : q < respIds.length := by
          have := hgoodenum p hp q hq
          omega
        obtain rfl := Option.some.inj heq
        constructor
        · exact hval _ (getD_mem_of_lt respIds p.1 hp1)
        · intro s hs _
          have hseq : s = respIds.getD q "" := (Option.some.inj hs).symm
          rw [hseq]
          exact hval _ (getD_mem_of_lt respIds q hq2)
  have hroots := rootNodeIds_eq_specRoots (flattenTree 0 none tree []) respIds
    hlen hne
  have hmovefilter : (specMoves (flattenTree 0 none tree []) respIds).filter
      DocEditChange.isMove = specMoves (flattenTree 0 none tree []) respIds := by
    apply List.filter_eq_self.mpr
    intro c hc
    obtain ⟨p, hp, heq⟩ := List.mem_filterMap.mp hc
    cases hq : p.2.parentIndex with
    | none => rw [hq] at heq; exact Option.noConfusion heq
    | some q =>
        rw [hq] at heq
        simp only [Option.map_some'] at heq
        rw [← Option.some.inj heq]
        rfl
  by_cases hops : (flattenTree 0 none tree []).enum.filterMap (fun p =>
      p.2.parentIndex.map (fun q =>
        ({ nodeId := respIds.getD p.1 "", newParent := some (respIds.getD q ""),
           newIndex := countEarlierSiblings (flattenTree 0 none tree []) p.1 q } :
          RestructureOperation))) = []
  · have hmovesnil : specMoves (flattenTree 0 none tree []) respIds = [] := by
      rw [← hchanges, hops]
      rfl
    have hmain : createListHierarchically doc1 respIds doc2 tree =
        (Except.ok (specRoots (flattenTree 0 none tree []) respIds),
         [StoreCall.docRead,
          StoreCall.docEdit (insertChanges "root" (getRootChildrenCount doc1) 0
            (createRequests (flattenTree 0 none tree [])))]) := by
      simp only [createListHierarchically]
      rw [if_neg (by simpa [List.length_eq_zero] using htree)]
      simp only [haii]
      rw [if_neg (not_not_intro hlen)]
      simp only [buildRestructureOps, hbuild]
      rw [hops]
      rw [if_neg (by simp)]
      rw [hroots]
    constructor
    · rw [hmain, hmovesnil]
      simp
    · rw [hmain, hmovesnil]
      simp only [issuedMoves, List.flatMap_cons, List.flatMap_nil]
      rw [insertChanges_no_move]
      rfl
  · have hvnone := (validateOps_eq_none_iff (indexById doc2) _).mpr hopsvalid
    have hrest : restructureItemsInternal doc2
        ((flattenTree 0 none tree []).enum.filterMap (fun p =>
          p.2.parentIndex.map (fun q =>
            ({ nodeId := respIds.getD p.1 "", newParent := some (respIds.getD q ""),
               newIndex := countEarlierSiblings (flattenTree 0 none tree []) p.1 q } :
              RestructureOperation)))) =
        (Except.ok ((flattenTree 0 none tree []).enum.filterMap (fun p =>
          p.2.parentIndex.map (fun q =>
            ({ nodeId := respIds.getD p.1 "", newParent := some (respIds.getD q ""),
               newIndex := countEarlierSiblings (flattenTree 0 none tree []) p.1 q } :
              RestructureOperation)))).length,
         [StoreCall.docRead,
          StoreCall.docEdit (specMoves (flattenTree 0 none tree []) respIds)]) := by
      simp only [restructureItemsInternal]
      rw [if_neg (by simpa [List.length_eq_zero] using hops)]
      simp only [hvnone]
      rw [hchanges]
    have hmovesne : specMoves (flattenTree 0 none tree []) respIds ≠ [] := by
      rw [← hchanges]
      intro h
      unfold restructureChanges at h
      exact hops (List.map_eq_nil_iff.mp h)
    have hmain : createListHierarchically doc1 respIds doc2 tree =
        (Except.ok (specRoots (flattenTree 0 none tree []) respIds),
         [StoreCall.docRead,
          StoreCall.docEdit (insertChanges "root" (getRootChildrenCount doc1) 0
            (createRequests (flattenTree 0 none tree [])))] ++
         [StoreCall.docRead,
          StoreCall.docEdit (specMoves (flattenTree 0 none tree []) respIds)]) := by
      simp only [createListHierarchically]
      rw [if_neg (by simpa [List.length_eq_zero] using htree)]
      simp only [haii]
      rw [if_neg (not_not_intro hlen)]
      simp only [buildRestructureOps, hbuild]
      rw [if_pos (by
        simp only [List.length_pos]
        exact hops)]
      simp only [hrest]
      rw [hroots]
    constructor
    · rw [hmain]
      rw [if_neg hmovesne]
    · rw [hmain]
      simp only [issuedMoves, List.flatMap_append, List.flatMap_cons,
        List.flatMap_nil]
      rw [insertChanges_no_move, hmovefilter]
      simp

/-- Witness for C1 at the claim's example input: the tree `[A[B,C], D]`,
with created ids `ia, ib, ic, id` present in the second snapshot.  The
returned roots are the created ids of `A` and `D`; `B` and `C` are moved
under `A`'s id at sibling indices 0 and 1, in input order. -/
theorem claim_C1_createListHierarchically_witness :
    (createListHierarchically
        [{ id := "root", children := some [] }]
        ["ia", "ib", "ic", "id"]
        [{ id := "root", children := some ["ia", "ib", "ic", "id"] },
         { id := "ia" }, { id := "ib" }, { id := "ic" }, { id := "id" }]
        [TreeNode.mk "A" none none none none none
           [TreeNode.mk "B" none none none none none [],
            TreeNode.mk "C" none none none none none []],
         TreeNode.mk "D" none none none none none []] =
      (Except.ok (specRoots (flattenTree 0 none
          [TreeNode.mk "A" none none none none none
             [TreeNode.mk "B" none none none none none [],
              TreeNode.mk "C" none none none none none []],
           TreeNode.mk "D" none none none none none []] [])
          ["ia", "ib", "ic", "id"]),
       [StoreCall.docRead,
        StoreCall.docEdit (insertChanges "root"
          (getRootChildrenCount [{ id := "root", children := some [] }]) 0
          (createRequests (flattenTree 0 none
            [TreeNode.mk "A" none none none none none
               [TreeNode.mk "B" none none none none none [],
                TreeNode.mk "C" none none none none none []],
             TreeNode.mk "D" none none none none none []] [])))] ++
       (if specMoves (flattenTree 0 none
            [TreeNode.mk "A" none none none none none
               [TreeNode.mk "B" none none none none none [],
                TreeNode.mk "C" none none none none none []],
             TreeNode.mk "D" none none none none none []] [])
            ["ia", "ib", "ic", "id"] = [] then []
        else [StoreCall.docRead,
              StoreCall.docEdit (specMoves (flattenTree 0 none
                [TreeNode.mk "A" none none none none none
                   [TreeNode.mk "B" none none none none none [],
                    TreeNode.mk "C" none none none none none []],
                 TreeNode.mk "D" none none none none none []] [])
                ["ia", "ib", "ic", "id"])]))) ∧
    issuedMoves (createListHierarchically
        [{ id := "root", children := some [] }]
        ["ia", "ib", "ic", "id"]
        [{ id := "root", children := some ["ia", "ib", "ic", "id"] },
         { id := "ia" }, { id := "ib" }, { id := "ic" }, { id := "id" }]
        [TreeNode.mk "A" none none none none none
           [TreeNode.mk "B" none none none none none [],
            TreeNode.mk "C" none none none none none []],
         TreeNode.mk "D" none none none none none []]).2 =
      specMoves (flattenTree 0 none
        [TreeNode.mk "A" none none none none none
           [TreeNode.mk "B" none none none none none [],
            TreeNode.mk "C" none none none none none []],
         TreeNode.mk "D" none none none none none []] [])
        ["ia", "ib", "ic", "id"] :=
  claim_C1_createListHierarchically
    [{ id := "root", children := some [] }]
    ["ia", "ib", "ic", "id"]
    [{ id := "root", children := some ["ia", "ib", "ic", "id"] },
     { id := "ia" }, { id := "ib" }, { id := "ic" }, { id := "id" }]
    [TreeNode.mk "A" none none none none none
       [TreeNode.mk "B" none none none none none [],
        TreeNode.mk "C" none none none none none []],
     TreeNode.mk "D" none none none none none []]
    (by simp) (by simp [flattenTree]) (by decide) (by decide)

end Dyn
